import Mathlib

/-!
Verification development for the `python-wylie-transliteration` repository.

This file is a shallow embedding, in Lean 4, of the core of the repository:
the character-mapping tables (`character_mappings.py`), the case normalizer
(`case_normalizer.py`), the multi-strategy syllable parser
(`syllable_parser.py`), the syllable builder (`syllable_builder.py`), the
forward transliterator (`transliterator.py`), the reverse mappings and
reverse transliterator (`reverse_mappings.py`, `tibetan_to_wylie.py`), and
the validator (`wylie_validator.py`, `validation_rules.py`).

Modelling conventions:
* Python `str` values are modelled as Lean `String` / `List Char`;
  `text[i:]` becomes `List.drop`, `startswith` becomes `List.isPrefixOf`.
* Python dictionaries are modelled as association lists in their literal
  insertion order; `sorted(keys, key=len, reverse=True)` (a stable sort) is
  modelled by the stable insertion sort `sortedByLenDesc`.
* Python character predicates (`isupper`, `islower`, `isdigit`) and
  `str.lower()` are modelled by the ASCII `Char.isUpper`, `Char.isLower`,
  `Char.isDigit` and `Char.toLower`; on the ASCII EWTS repertoire these
  coincide with Python's Unicode versions.
* The main scan loops, which in Python walk an index across the input, are
  modelled with an explicit fuel argument (`none` on fuel exhaustion); the
  termination theorem shows fuel equal to the input length always suffices.
-/

namespace Wylie

/-! ## Generic helpers for dictionaries modelled as association lists -/

/-- Look up a key in an association list (first match, like a Python dict). -/
def alookup (m : List (String × String)) (k : String) : Option String :=
  (m.find? (fun p => p.1 == k)).map (·.2)

/-- Membership test for keys (`k in d` in Python). -/
def hasKey (m : List (String × String)) (k : String) : Bool :=
  (alookup m k).isSome

/-- Lookup with default (`d.get(k, default)` in Python). -/
def dictGetD (m : List (String × String)) (k d : String) : String :=
  (alookup m k).getD d

/-- The list of keys of an association list, in insertion order. -/
def keysOf (m : List (String × String)) : List String :=
  m.map (·.1)

/-- Set a key in an association list: replace the value in place if the key
exists, else append; this mirrors Python dict assignment, which keeps the
original insertion position on overwrite. -/
def dictSet (m : List (String × String)) (k v : String) : List (String × String) :=
  if hasKey m k then m.map (fun p => if p.1 == k then (k, v) else p)
  else m ++ [(k, v)]

/-- Insert a string into a list that is sorted by non-increasing length,
keeping it after all strictly longer entries (stability for equal lengths). -/
def insLenDesc (s : String) : List String → List String
  | [] => [s]
  | x :: xs => if x.length > s.length then x :: insLenDesc s xs else s :: x :: xs

/-- Stable sort by non-increasing string length.  This reproduces Python's
`sorted(keys, key=len, reverse=True)` (Python's sort is stable). -/
def sortedByLenDesc (l : List String) : List String :=
  l.foldr insLenDesc []

/-- Lowercase every character of a character list (`str.lower()`). -/
def lowerChars (t : List Char) : List Char :=
  t.map Char.toLower

/-- Lowercase a string (`str.lower()`). -/
def strLower (s : String) : String :=
  String.mk (lowerChars s.data)

/-- Split a character list on a separator character (Python
`str.split(sep)` over characters). -/
def splitOnChar (sep : Char) : List Char → List (List Char)
  | [] => [[]]
  | c :: rest =>
    match splitOnChar sep rest with
    | h :: t => if c = sep then [] :: h :: t else (c :: h) :: t
    | [] => if c = sep then [[], []] else [[c]]

/-- Python `s.split('+')`. -/
def splitPlus (s : String) : List String :=
  (splitOnChar '+' s.data).map String.mk

/-! ## `TibetanAlphabet` (character_mappings.py)

The tables below transcribe the dictionary literals of
`character_mappings.py` entry by entry, in insertion order. -/

/-- `TibetanAlphabet.CONSONANTS`. -/
def consonants : List (String × String) :=
  [("k", "ཀ"), ("kh", "ཁ"), ("g", "ག"), ("gh", "གྷ"),
   ("ng", "ང"), ("c", "ཅ"), ("ch", "ཆ"), ("j", "ཇ"),
   ("ny", "ཉ"), ("t", "ཏ"), ("th", "ཐ"), ("d", "ད"),
   ("dh", "དྷ"), ("n", "ན"), ("p", "པ"), ("ph", "ཕ"),
   ("b", "བ"), ("bh", "བྷ"), ("m", "མ"), ("ts", "ཙ"),
   ("tsh", "ཚ"), ("dz", "ཛ"), ("dzh", "ཛྷ"), ("w", "ཝ"),
   ("zh", "ཞ"), ("z", "ཟ"), ("'", "འ"), ("y", "ཡ"),
   ("r", "ར"), ("l", "ལ"), ("sh", "ཤ"), ("ss", "ཥ"),
   ("s", "ས"), ("h", "ཧ"), ("a", "ཨ"),
   ("tt", "ཊ"), ("tth", "ཋ"), ("dd", "ཌ"), ("ddh", "ཌྷ"),
   ("nn", "ཎ"), ("kss", "ཀྵ"),
   ("Ta", "ཊ"), ("Tha", "ཋ"), ("Da", "ཌ"), ("Dha", "ཌྷ"),
   ("Na", "ཎ"), ("Sha", "ཥ")]

/-- `TibetanAlphabet.VOWELS`. -/
def vowels : List (String × String) :=
  [("a", ""), ("i", "ི"), ("u", "ུ"), ("e", "ེ"),
   ("o", "ོ"), ("A", "ཱ"), ("U", "ཱུ"),
   ("-i", "ྀ"), ("-I", "ཱྀ")]

/-- `TibetanAlphabet.SUBSCRIPTS`. -/
def subscripts : List (String × String) :=
  [("r", "ྲ"), ("l", "ླ"), ("y", "ྱ"), ("w", "ྭ"),
   ("v", "ྭ"), ("m", "ྨ")]

/-- `TibetanAlphabet.SUBJOINED`. -/
def subjoined : List (String × String) :=
  [("k", "ྐ"), ("kh", "ྑ"), ("g", "ྒ"), ("gh", "ྒྷ"),
   ("ng", "ྔ"), ("c", "ྕ"), ("ch", "ྖ"), ("j", "ྗ"),
   ("ny", "ྙ"), ("t", "ྟ"), ("th", "ྠ"), ("d", "ྡ"),
   ("dh", "ྡྷ"), ("n", "ྣ"), ("p", "ྤ"), ("ph", "ྥ"),
   ("b", "ྦ"), ("bh", "ྦྷ"), ("m", "ྨ"), ("ts", "ྩ"),
   ("tsh", "ྪ"), ("dz", "ྫ"), ("dzh", "ྫྷ"), ("w", "ྭ"),
   ("zh", "ྮ"), ("z", "ྯ"), ("y", "ྱ"), ("r", "ྲ"),
   ("l", "ླ"), ("sh", "ྴ"), ("ss", "ྵ"), ("s", "ྶ"),
   ("h", "ྷ"), ("tt", "ྚ"), ("tth", "ྛ"), ("dd", "ྜ"),
   ("ddh", "ྜྷ"), ("nn", "ྞ"), ("kss", "ྐྵ")]

/-- `TibetanAlphabet.PUNCTUATION`. -/
def punctuation : List (String × String) :=
  [(" ", "་"), ("*", "༌"), ("/", "།"), ("//", "༎"),
   (";", "༏"), ("|", "།"), ("||", "༎"), ("!", "༈"),
   (":", "༎"), ("_", "༵")]

/-- `TibetanAlphabet.NUMERALS`. -/
def numerals : List (String × String) :=
  [("0", "༠"), ("1", "༡"), ("2", "༢"), ("3", "༣"),
   ("4", "༤"), ("5", "༥"), ("6", "༦"), ("7", "༧"),
   ("8", "༨"), ("9", "༩")]

/-- `TibetanAlphabet.SANSKRIT_MARKS`. -/
def sanskritMarks : List (String × String) :=
  [("M", "ཾ"), ("H", "ཿ"), ("~M", "ཾ"), ("~H", "ཿ")]

/-- `TibetanAlphabet.ANUSVARA_AFTER_U` (defined in the source but never used
by the transliterator). -/
def anusvaraAfterU : String := "ྃ"

/-- `TibetanAlphabet.SANSKRIT_RETROFLEX`. -/
def sanskritRetroflex : List (String × String) :=
  [("Ta", "ཊ"), ("Tha", "ཋ"), ("Da", "ཌ"), ("Dha", "ཌྷ"),
   ("Na", "ཎ"), ("Sha", "ཥ")]

/-! ## `SyllableRules` (character_mappings.py)

`SyllableRules` defines only `PRESCRIPTS`, `SUPERSCRIPTS` and `POSTSCRIPTS`.
It does NOT define a `VALID_SUPERSCRIPT_COMBINATIONS` attribute (that table
exists only in `validation_rules.py`, on a different class).  The Python
sets are modelled as lists; every use of them in the parser is a
first-prefix-match over single-character entries with pairwise distinct
first characters (plus the longer entry `ng`, which Python's
`sorted(key=len, reverse=True)` places first), so the arbitrary set
iteration order cannot affect any result. -/

/-- `SyllableRules.PRESCRIPTS`. -/
def rulesPrescripts : List String := ["g", "d", "b", "m", "'"]

/-- `SyllableRules.SUPERSCRIPTS`. -/
def rulesSuperscripts : List String := ["r", "l", "s"]

/-- `SyllableRules.POSTSCRIPTS`. -/
def rulesPostscripts : List String :=
  ["g", "ng", "d", "n", "b", "m", "r", "l", "s", "'"]

/-! ## `CaseNormalizer` (case_normalizer.py) -/

/-- `CaseNormalizer.SANSKRIT_RETROFLEX_3`. -/
def normRetroflex3 : List String := ["Tha", "Dha", "Sha"]

/-- `CaseNormalizer.SANSKRIT_RETROFLEX_2`. -/
def normRetroflex2 : List String := ["Ta", "Da", "Na"]

/-- `CaseNormalizer.SANSKRIT_MARKS`. -/
def normMarks : List Char := ['M', 'H']

/-- `CaseNormalizer.TERMINATOR_CHARS`. -/
def terminatorChars : List Char := [' ', '/', '|', '\n', '\t', 'M']

/-- Does the character list start with the given pattern string? -/
def startsWithStr (t : List Char) (p : String) : Bool :=
  p.data.isPrefixOf t

/-- The body of the `while` loop of `CaseNormalizer.normalize`, as a
recursion over the remaining input with an explicit fuel argument (each
loop iteration consumes at least one character, so fuel equal to the input
length always suffices; on exhaustion the remainder is returned
unchanged).  `prev` is the character immediately before the current
position in the ORIGINAL text (`text[i-1]`), which the long-vowel branch
inspects. -/
def normalizeStep (recur : Option Char → List Char → List Char)
    (prev : Option Char) (c : Char) (rest : List Char) : List Char :=
  -- Sanskrit retroflex, 3-character forms first
  if startsWithStr (c :: rest) "Tha" then
    'T' :: 'h' :: 'a' :: recur (some 'a') (rest.drop 2)
  else if startsWithStr (c :: rest) "Dha" then
    'D' :: 'h' :: 'a' :: recur (some 'a') (rest.drop 2)
  else if startsWithStr (c :: rest) "Sha" then
    'S' :: 'h' :: 'a' :: recur (some 'a') (rest.drop 2)
  -- 2-character retroflex, preserved verbatim
  else if startsWithStr (c :: rest) "Ta" then
    'T' :: 'a' :: recur (some 'a') (rest.drop 1)
  else if startsWithStr (c :: rest) "Da" then
    'D' :: 'a' :: recur (some 'a') (rest.drop 1)
  else if startsWithStr (c :: rest) "Na" then
    'N' :: 'a' :: recur (some 'a') (rest.drop 1)
  -- standalone Sanskrit marks, kept only before a terminator
  else if c ∈ normMarks ∧ (rest = [] ∨ rest.head? ∈ terminatorChars.map some) then
    c :: recur (some c) rest
  -- long vowel A: kept only after a lowercase original character
  else if c = 'A' then
    (if (prev.map Char.isLower).getD false then 'A' else 'a') ::
      recur (some 'A') rest
  -- multi-character consonant, greedy lengths 4, 3, 2
  else if 4 ≤ (c :: rest).length ∧
      hasKey consonants (String.mk (lowerChars ((c :: rest).take 4))) then
    lowerChars ((c :: rest).take 4) ++
      recur ((c :: rest).take 4).getLast? (rest.drop 3)
  else if 3 ≤ (c :: rest).length ∧
      hasKey consonants (String.mk (lowerChars ((c :: rest).take 3))) then
    lowerChars ((c :: rest).take 3) ++
      recur ((c :: rest).take 3).getLast? (rest.drop 2)
  else if 2 ≤ (c :: rest).length ∧
      hasKey consonants (String.mk (lowerChars ((c :: rest).take 2))) then
    lowerChars ((c :: rest).take 2) ++
      recur ((c :: rest).take 2).getLast? (rest.drop 1)
  -- single character
  else if c.isUpper then
    if c ∈ ['N', 'T', 'D', 'S'] ∧ rest ≠ [] ∧
        ((rest.head?.map (fun nc => nc.isLower && !(['h', 'a'].contains nc))).getD false) = true then
      -- potential Sanskrit capital: rewrite e.g. "Ni" to "Na" + "i"
      c :: 'a' :: recur (some c) rest
    else if hasKey consonants (String.mk [c.toLower]) then
      c.toLower :: recur (some c) rest
    else
      c :: recur (some c) rest
  else
    c :: recur (some c) rest

/-- The loop of `normalize`: one `normalizeStep` per fuel unit. -/
def normalizeLoop (fuel : Nat) (prev : Option Char) (t : List Char) : List Char :=
  match fuel, t with
  | _, [] => []
  | 0, remaining => remaining
  | fuel + 1, c :: rest => normalizeStep (normalizeLoop fuel) prev c rest

/-- `CaseNormalizer.normalize`. -/
def normalize (s : String) : String :=
  String.mk (normalizeLoop s.data.length none s.data)

/-! ## `SyllableComponents` (models/syllable.py) -/

/-- The seven structural slots of a syllable.  Python's
`SyllableComponents` dataclass; optional slots are `None`-able strings and
`vowel` defaults to the inherent `'a'` but is passed as `None` by the
validator, so it is modelled as an `Option`. -/
structure SyllableComponents where
  root : String
  prescript : Option String := none
  superscript : Option String := none
  subscript : Option String := none
  vowel : Option String := some "a"
  postscript1 : Option String := none
  postscript2 : Option String := none
  deriving Repr, DecidableEq

/-! ## `MultiStrategySyllableParser` (syllable_parser.py) -/

/-- The four parsing strategies tried by `parse_syllable`, in order. -/
inductive Strategy
  | simple
  | withSuper
  | withPre
  | full
  deriving Repr, DecidableEq

/-- `CONSONANTS` keys, longest first (`sorted(keys, key=len, reverse=True)`). -/
def consonantsSorted : List String :=
  sortedByLenDesc (keysOf consonants)

/-- `SUBJOINED` keys, longest first. -/
def subjoinedSorted : List String :=
  sortedByLenDesc (keysOf subjoined)

/-- `SUBSCRIPTS` keys, longest first. -/
def subscriptsSorted : List String :=
  sortedByLenDesc (keysOf subscripts)

/-- `VOWELS` keys, longest first. -/
def vowelsSorted : List String :=
  sortedByLenDesc (keysOf vowels)

/-- `_could_be_multichar_consonant`: does the text start with a consonant
spelling of 3 or more characters? -/
def couldBeMulticharConsonant (text : List Char) : Bool :=
  (keysOf consonants).any fun cons =>
    2 < cons.length && startsWithStr (lowerChars text) cons

/-- `_has_valid_root_ahead`: is some consonant other than `'a'` a prefix of
the (lowercased) text? -/
def hasValidRootAhead (text : List Char) : Bool :=
  (keysOf consonants).any fun root =>
    root ≠ "a" && startsWithStr (lowerChars text) root

/-- `_match_prescript`: first prescript that prefixes the lowercased text,
whose remainder does not start a 3+-character consonant and is followed by a
valid root. -/
def matchPrescript (text : List Char) : Option (String × Nat) :=
  (sortedByLenDesc rulesPrescripts).findSome? fun pre =>
    if startsWithStr (lowerChars text) pre ∧
        ¬ couldBeMulticharConsonant (text.drop pre.length) = true ∧
        hasValidRootAhead (text.drop pre.length) = true then
      some (pre, pre.length)
    else none

/-- `_match_superscript`: same lookahead discipline as `_match_prescript`. -/
def matchSuperscript (text : List Char) : Option (String × Nat) :=
  (sortedByLenDesc rulesSuperscripts).findSome? fun sup =>
    if startsWithStr (lowerChars text) sup ∧
        ¬ couldBeMulticharConsonant (text.drop sup.length) = true ∧
        hasValidRootAhead (text.drop sup.length) = true then
      some (sup, sup.length)
    else none

/-- The first loop of `_match_root`: longest case-sensitive consonant
match (captures the Sanskrit retroflex capitals literally). -/
def matchRootCS (text : List Char) : Option (String × Nat) :=
  consonantsSorted.findSome? fun root =>
    if startsWithStr text root then some (root, root.length) else none

/-- The second loop of `_match_root`: longest case-insensitive match,
returning the lowercased spelling. -/
def matchRootCI (text : List Char) : Option (String × Nat) :=
  consonantsSorted.findSome? fun root =>
    if startsWithStr (lowerChars text) (strLower root) then
      some (strLower root, root.length)
    else none

/-- `_match_root`: case-sensitive loop first, case-insensitive second. -/
def matchRoot (text : List Char) : Option (String × Nat) :=
  (matchRootCS text).orElse fun _ => matchRootCI text

/-- `_match_subscript`: explicit `+` notation looks up the SUBJOINED table
case-sensitively (with an optional second `+`-joined subscript); the
implicit form matches up to two SUBSCRIPTS keys case-insensitively. -/
def matchSubscript (text : List Char) : Option (String × Nat) :=
  match text with
  | '+' :: after =>
    match subjoinedSorted.findSome? (fun cons =>
        if startsWithStr after cons then some cons else none) with
    | none => none
    | some cons =>
      let pos := 1 + cons.length
      if (text.drop pos).head? = some '+' then
        match subjoinedSorted.findSome? (fun cons2 =>
            if startsWithStr (text.drop (pos + 1)) cons2 then some cons2
            else none) with
        | some cons2 => some (cons ++ "+" ++ cons2, pos + 1 + cons2.length)
        | none =>
          -- the second '+' was consumed even though nothing matched after it
          some (cons, pos + 1)
      else some (cons, pos)
  | _ =>
    match subscriptsSorted.findSome? (fun sub =>
        if startsWithStr (lowerChars text) sub then some sub else none) with
    | none => none
    | some sub =>
      match subscriptsSorted.findSome? (fun sub2 =>
          if startsWithStr (lowerChars (text.drop sub.length)) sub2 then
            some sub2
          else none) with
      | some sub2 => some (sub ++ "+" ++ sub2, sub.length + sub2.length)
      | none => some (sub, sub.length)

/-- `_match_vowel`: longest vowel spelling that prefixes the text
(case-sensitively). -/
def matchVowel (text : List Char) : Option (String × Nat) :=
  vowelsSorted.findSome? fun v =>
    if startsWithStr text v then some (v, v.length) else none

/-- The parser's rules object is `SyllableRules` from
`character_mappings.py`, which does not define a
`VALID_SUPERSCRIPT_COMBINATIONS` attribute, so the `hasattr` test in
`_is_valid_superscript_combination` is always false. -/
def parserSuperscriptTable : Option (List (String × List String)) := none

/-- `_is_valid_superscript_combination`: falls back to `True` ("backward
compatibility") because its rules object has no superscript table. -/
def isValidSuperscriptCombination (sup root : String) : Bool :=
  match parserSuperscriptTable with
  | none => true
  | some tbl =>
    (((tbl.find? (fun p => p.1 == sup)).map (·.2)).getD []).contains root

/-- `_match_postscript`: a leading capital is never a postscript; an
apostrophe directly followed by a vowel letter starts a genitive syllable
instead. -/
def matchPostscript (text : List Char) : Option (String × Nat) :=
  match text with
  | [] => none
  | c :: rest =>
    if c.isUpper then none
    else
      match (sortedByLenDesc rulesPostscripts).find? (fun post =>
          startsWithStr (lowerChars (c :: rest)) post) with
      | none => none
      | some post =>
        if post = "'" ∧ 0 < rest.length ∧
            (rest.head?.map
              (fun nc => ['i', 'u', 'e', 'o', 'a', 'A', 'I', 'U', 'E', 'O'].contains nc)).getD false
              = true then
          none
        else some (post, post.length)

/-- The postscript phase shared by every strategy: match up to two
postscripts starting at `pos`, then construct the components (the
`SyllableComponents.__post_init__` check rejects an empty root). -/
def finishStrategy (prescript superscript : Option String) (root : String)
    (subscript : Option String) (vowel : String) (text : List Char)
    (pos : Nat) : Option (SyllableComponents × Nat) :=
  let p1 := matchPostscript (text.drop pos)
  let pos1 := match p1 with
    | some (_, l) => pos + l
    | none => pos
  let postscript1 := p1.map (·.1)
  let p2 := match p1 with
    | some _ => matchPostscript (text.drop pos1)
    | none => none
  let pos2 := match p2 with
    | some (_, l) => pos1 + l
    | none => pos1
  let postscript2 := p2.map (·.1)
  if root = "" then none
  else
    some ({ root := root, prescript := prescript, superscript := superscript,
            subscript := subscript, vowel := some vowel,
            postscript1 := postscript1, postscript2 := postscript2 }, pos2)

/-- The root phase shared by every strategy of `_try_strategy`: match the
required root (or fall back to a vowel-initial syllable), validate the
superscript–root combination, then match subscript, vowel and postscripts.
`prescript`, `superscript` and `pos` come from the strategy's
prescript/superscript phase. -/
def tryStrategyRootPhase (text : List Char)
    (prescript superscript : Option String) (pos : Nat) :
    Option (SyllableComponents × Nat) :=
  match matchRoot (text.drop pos) with
  | some (root, rootLen) =>
    let pos1 := pos + rootLen
    -- validate superscript + root combination
    if superscript.isSome ∧
        ¬ isValidSuperscriptCombination (superscript.getD "") root = true then
      none
    else
      -- subscript (non-vowel-initial syllables only)
      let subRes : Option String × Nat :=
        match matchSubscript (text.drop pos1) with
        | some (s, l) => (some s, pos1 + l)
        | none => (none, pos1)
      -- vowel (default inherent 'a')
      let vwRes : String × Nat :=
        match matchVowel (text.drop subRes.2) with
        | some (v, l) => (v, subRes.2 + l)
        | none => ("a", subRes.2)
      finishStrategy prescript superscript root subRes.1 vwRes.1 text vwRes.2
  | none =>
    -- vowel-initial syllable: implicit root 'a'
    match matchVowel (text.drop pos) with
    | some (v, vowelLen) =>
      if v ≠ "a" then
        if superscript.isSome ∧
            ¬ isValidSuperscriptCombination (superscript.getD "") "a" = true then
          none
        else
          finishStrategy prescript superscript "a" none v text (pos + vowelLen)
      else none
    | none => none

/-- `_try_strategy`: one structural strategy over the text. -/
def tryStrategy (text : List Char) (strategy : Strategy) :
    Option (SyllableComponents × Nat) :=
  -- prescript phase (strategies `with_pre` and `full`)
  let preRes : Option String × Nat :=
    match strategy with
    | .withPre | .full =>
      match matchPrescript text with
      | some (p, l) => (some p, l)
      | none => (none, 0)
    | _ => (none, 0)
  -- superscript phase (strategies `with_super` and `full`)
  let supRes : Option String × Nat :=
    match strategy with
    | .withSuper | .full =>
      match matchSuperscript (text.drop preRes.2) with
      | some (s, l) => (some s, preRes.2 + l)
      | none => (none, preRes.2)
    | _ => (none, preRes.2)
  tryStrategyRootPhase text preRes.1 supRes.1 supRes.2

/-- One step of the strategy fold of `parse_syllable`: keep the current
best unless this strategy matched strictly more characters. -/
def pickStrategy (text : List Char) (best : Option SyllableComponents × Nat)
    (strat : Strategy) : Option SyllableComponents × Nat :=
  match tryStrategy text strat with
  | some (c, l) => if best.2 < l then (some c, l) else best
  | none => best

/-- `parse_syllable`: try the four strategies in order and keep the
components of the strictly longest successful match. -/
def parseSyllable (text : List Char) : Option SyllableComponents :=
  if text.isEmpty then none
  else
    (([Strategy.simple, Strategy.withSuper, Strategy.withPre, Strategy.full].foldl
      (pickStrategy text)
      ((none : Option SyllableComponents), 0))).1

/-! ## `SyllableBuilder` (syllable_builder.py) -/

/-- `build_syllable`, restricted to the Unicode text it produces: prescript
and superscript in base form, the root subjoined exactly when a superscript
is present, subscripts from the SUBSCRIPTS table (`+`-compounds rendered
part by part), the vowel sign unless inherent, then the postscripts.
Unmapped tokens render as empty segments. -/
def buildSyllableUnicode (c : SyllableComponents) : String :=
  (match c.prescript with
   | some p => dictGetD consonants p ""
   | none => "") ++
  (match c.superscript with
   | some s => dictGetD consonants s ""
   | none => "") ++
  (if c.superscript.isSome then dictGetD subjoined c.root ""
   else dictGetD consonants c.root "") ++
  (match c.subscript with
   | some sub =>
     if sub.data.contains '+' then
       String.join ((splitPlus sub).map (fun part => dictGetD subscripts part ""))
     else dictGetD subscripts sub ""
   | none => "") ++
  (match c.vowel with
   | some v => if v ≠ "" ∧ v ≠ "a" then dictGetD vowels v "" else ""
   | none => "") ++
  (match c.postscript1 with
   | some p => dictGetD consonants p ""
   | none => "") ++
  (match c.postscript2 with
   | some p => dictGetD consonants p ""
   | none => "")

/-! ## `WylieToTibetanTransliterator` (transliterator.py) -/

/-- `_match_punctuation`: 2-character punctuation before 1-character. -/
def matchPunctuation (text : List Char) : String × Nat :=
  if 2 ≤ text.length ∧ hasKey punctuation (String.mk (text.take 2)) then
    (dictGetD punctuation (String.mk (text.take 2)) "", 2)
  else if 1 ≤ text.length ∧ hasKey punctuation (String.mk (text.take 1)) then
    (dictGetD punctuation (String.mk (text.take 1)) "", 1)
  else ("", 0)

/-- `_match_sanskrit_mark`: 2-character marks before 1-character.  The
`previous_char` context argument is accepted and ignored: the source always
uses the default `U+0F7E` anusvara codepoint regardless of context. -/
def matchSanskritMark (text : List Char) (previousChar : String) : String × Nat :=
  let _ := previousChar
  if 2 ≤ text.length ∧ hasKey sanskritMarks (String.mk (text.take 2)) then
    (dictGetD sanskritMarks (String.mk (text.take 2)) "", 2)
  else if 1 ≤ text.length ∧ hasKey sanskritMarks (String.mk (text.take 1)) then
    (dictGetD sanskritMarks (String.mk (text.take 1)) "", 1)
  else ("", 0)

/-- The vowel keys tried by `_match_standalone_vowel` (all vowels except
the inherent `a` and the bare long `A`, longest first). -/
def standaloneVowelKeys : List String :=
  sortedByLenDesc ((keysOf vowels).filter fun k => k ≠ "a" && k ≠ "A")

/-- The search loop of `_match_standalone_vowel`: the first vowel key that
prefixes the text and is followed by a terminator, an uppercase letter, or
the end of the text. -/
def standaloneVowelFind (text : List Char) : Option (String × Nat) :=
  standaloneVowelKeys.findSome? fun v =>
    if startsWithStr text v then
      if v.length ≥ text.length ∨
          ((text.drop v.length).head?.map
            (fun nc => [' ', '/', '|', '\n', '\t'].contains nc || nc.isUpper)).getD false
            = true then
        some (dictGetD consonants "a" "" ++ dictGetD vowels v "", v.length)
      else none
    else none

/-- `_match_standalone_vowel`: a standalone vowel rendered as the
pure-vowel consonant `'a'` plus the vowel sign. -/
def matchStandaloneVowel (text : List Char) : String × Nat :=
  match standaloneVowelFind text with
  | some r => r
  | none => ("", 0)

/-- The vowel-initial test of `_match_syllable`: the parsed root is the
placeholder `'a'` although the text does not start with `a`/`A`, and an
explicit (non-inherent) vowel was parsed. -/
def isVowelInitialSyllable (text : List Char) (c : SyllableComponents) : Bool :=
  c.root == "a" &&
  (match text.head? with
   | some t0 => t0 ≠ 'a' && t0 ≠ 'A'
   | none => false) &&
  (match c.vowel with
   | some v => v ≠ "" && v ≠ "a"
   | none => false)

/-- The subscript contribution to the matched length: an explicit `+` at
the position after the root adds one character for the marker, and a
`+`-joined compound counts its parts plus the internal `+` markers. -/
def subscriptLenContribution (text : List Char) (posAfterRoot : Nat)
    (sub : String) : Nat :=
  if text[posAfterRoot]? = some '+' then
    if sub.data.contains '+' then
      1 + ((splitPlus sub).map String.length).sum + ((splitPlus sub).length - 1)
    else 1 + sub.length
  else
    if sub.data.contains '+' then ((splitPlus sub).map String.length).sum
    else sub.length

/-- The vowel contribution to the matched length: the vowel is counted
only when it is literally present at the expected position in the source
text (an inherent `a` is unwritten and adds nothing). -/
def vowelLenContribution (text : List Char) (ml : Nat) (v : String) : Nat :=
  if v ≠ "" then
    if ml + v.length ≤ text.length ∧ (text.drop ml).take v.length = v.data then
      v.length
    else 0
  else 0

/-- The matched-length recomputation of `_match_syllable`: how many source
characters the parsed components span, accounting for explicit `+` markers
and inherent (unwritten) vowels. -/
def matchedLen (text : List Char) (c : SyllableComponents) : Nat :=
  let vowelInitial := isVowelInitialSyllable text c
  let preLen := match c.prescript with
    | some p => p.length
    | none => 0
  let supLen := match c.superscript with
    | some s => s.length
    | none => 0
  let ml1 := preLen + supLen
  -- the implicit 'a' root of a vowel-initial syllable is not counted
  let ml2 := if vowelInitial then ml1 else ml1 + c.root.length
  let posAfterRoot := preLen + supLen + c.root.length
  let ml3 := ml2 + (match c.subscript with
    | some sub => subscriptLenContribution text posAfterRoot sub
    | none => 0)
  let ml4 := ml3 + (match c.vowel with
    | some v => vowelLenContribution text ml3 v
    | none => 0)
  let ml5 := ml4 + (match c.postscript1 with
    | some p => p.length
    | none => 0)
  ml5 + (match c.postscript2 with
    | some p => p.length
    | none => 0)

/-- `_match_syllable`: parse, recompute the matched length, and build the
Unicode rendering; `("", 0)` when no syllable starts here. -/
def matchSyllableF (text : List Char) : String × Nat :=
  match parseSyllable text with
  | none => ("", 0)
  | some c =>
    if c.root = "" then ("", 0)
    else (buildSyllableUnicode c, matchedLen text c)

/-- One iteration of the scan loop of
`WylieToTibetanTransliterator.transliterate`, at a position holding the
character `c` followed by `rest`; `recur` is the continuation on the
remaining text.  `acc` collects the rendered units in reverse order (its
head is Python's `result[-1]`). -/
def transStep (recur : List Char → Bool → List String → Option String)
    (c : Char) (rest : List Char) (spacesAsTsheg lastWasSyllable : Bool)
    (acc : List String) : Option String :=
  if c.isDigit then
    recur rest false (dictGetD numerals (String.mk [c]) (String.mk [c]) :: acc)
  else if c = ' ' then
    recur rest false ((if spacesAsTsheg then "་" else " ") :: acc)
  else
    let punct := matchPunctuation (c :: rest)
    if punct.1 ≠ "" then
      recur ((c :: rest).drop punct.2) false (punct.1 :: acc)
    else
      let prevChar := (acc.head?).getD ""
      let mark := matchSanskritMark (c :: rest) prevChar
      if mark.1 ≠ "" then
        recur ((c :: rest).drop mark.2) false (mark.1 :: acc)
      else
        let sv := if lastWasSyllable then ("", 0) else matchStandaloneVowel (c :: rest)
        if sv.1 ≠ "" then
          recur ((c :: rest).drop sv.2) true (sv.1 :: acc)
        else
          let syl := matchSyllableF (c :: rest)
          if syl.1 ≠ "" then
            recur ((c :: rest).drop syl.2) true (syl.1 :: acc)
          else
            recur rest false (String.mk [c] :: acc)

/-- The scan loop of `WylieToTibetanTransliterator.transliterate`, with an
explicit fuel argument; one iteration per fuel unit, `none` on
exhaustion. -/
def transLoop (fuel : Nat) (t : List Char) (spacesAsTsheg lastWasSyllable : Bool)
    (acc : List String) : Option String :=
  match fuel, t with
  | _, [] => some (String.join acc.reverse)
  | 0, _ :: _ => none
  | fuel + 1, c :: rest =>
    transStep (fun t' last' acc' => transLoop fuel t' spacesAsTsheg last' acc')
      c rest spacesAsTsheg lastWasSyllable acc

/-- `WylieToTibetanTransliterator.transliterate`, with fuel equal to the
length of the normalized input (one iteration consumes at least one
character, so this fuel suffices; see the termination theorem). -/
def wylieToUnicodeOpt (s : String) (spacesAsTsheg : Bool) : Option String :=
  let normalized := (normalize s).data
  transLoop normalized.length normalized spacesAsTsheg false []

/-- The forward transliterator as a plain function. -/
def wylieToUnicode (s : String) (spacesAsTsheg : Bool) : String :=
  (wylieToUnicodeOpt s spacesAsTsheg).getD ""

/-! ## `ReverseCharacterMappings` (reverse_mappings.py) -/

/-- `_reverse_dict`: invert a forward table; on a collision (several EWTS
spellings for one Unicode value) keep the entry already present unless the
new spelling is strictly shorter. -/
def reverseDict (m : List (String × String)) : List (String × String) :=
  m.foldl
    (fun acc p =>
      match alookup acc p.2 with
      | none => acc ++ [(p.2, p.1)]
      | some w0 => if p.1.length < w0.length then dictSet acc p.2 p.1 else acc)
    []

/-- Apply all entries of `upd` to `base` with dict-assignment semantics
(`base.update(upd)` in Python). -/
def dictUpdate (base upd : List (String × String)) : List (String × String) :=
  upd.foldl (fun acc p => dictSet acc p.1 p.2) base

/-- `_subjoined_consonants`: every base consonant in the range
`U+0F40..U+0F6C` also has a subjoined form at `codepoint + 0x50`; its
spelling is the base spelling minus a trailing `'a'`.  Later entries of
`CONSONANTS` overwrite earlier ones (plain dict assignment), so e.g. the
subjoined form of `U+0F4A` reverses to `"T"` (from `"Ta"`), not `"tt"`. -/
def subjoinedConsonantsRev : List (String × String) :=
  consonants.foldl
    (fun acc p =>
      match p.2.data with
      | [c] =>
        if 0xF40 ≤ c.toNat ∧ c.toNat ≤ 0xF6C then
          dictSet acc (String.mk [Char.ofNat (c.toNat + 0x50)])
            (if p.1.data.getLast? = some 'a' ∧ 1 < p.1.length then
              String.mk p.1.data.dropLast
            else p.1)
        else acc
      | _ => acc)
    []

/-- `_consonants` after `__init__` (the `kss` two-codepoint compound is
added at the end of the constructor). -/
def revConsonants : List (String × String) :=
  dictSet (reverseDict consonants) "ཀྵ" "kss"

/-- `_vowels` after `__init__` (the compound long-a + u sequence is added
when absent, reversing to `U`). -/
def revVowels : List (String × String) :=
  let base := reverseDict vowels
  if hasKey base "ཱུ" then base else base ++ [("ཱུ", "U")]

/-- `_subscripts`. -/
def revSubscripts : List (String × String) :=
  reverseDict subscripts

/-- `_punctuation`. -/
def revPunctuation : List (String × String) :=
  reverseDict punctuation

/-- `_sanskrit_marks` after `__init__` (the alternative anusvara `U+0F83`
is added, reversing to `M`). -/
def revSanskritMarks : List (String × String) :=
  let base := reverseDict sanskritMarks
  if hasKey base "ྃ" then base else base ++ [("ྃ", "M")]

/-- `_numerals`. -/
def revNumerals : List (String × String) :=
  reverseDict numerals

/-- `_sanskrit_retroflex`. -/
def revSanskritRetroflex : List (String × String) :=
  reverseDict sanskritRetroflex

/-- `_all_chars`: the combined lookup, built by updating with each reversed
table in constructor order, then with the subjoined consonants, then adding
the special compound vowel, the alternative anusvara, and the `kss`
compound. -/
def allChars : List (String × String) :=
  let m0 := reverseDict consonants
  let m1 := dictUpdate m0 (reverseDict vowels)
  let m2 := dictUpdate m1 (reverseDict subscripts)
  let m3 := dictUpdate m2 (reverseDict punctuation)
  let m4 := dictUpdate m3 (reverseDict sanskritMarks)
  let m5 := dictUpdate m4 (reverseDict numerals)
  let m6 := dictUpdate m5 (reverseDict sanskritRetroflex)
  let m7 := dictUpdate m6 subjoinedConsonantsRev
  let m8 := if hasKey m7 "ཱུ" then m7 else m7 ++ [("ཱུ", "U")]
  let m9 := if hasKey m8 "ྃ" then m8 else m8 ++ [("ྃ", "M")]
  dictSet m9 "ཀྵ" "kss"

/-- Kernel-evaluable snapshot of the computed `_all_chars` reverse table
(`allCharsTable_eq` checks it against the construction above). -/
def allCharsTable : List (String × String) :=
  [("ཀ", "k"),
   ("ཁ", "kh"),
   ("ག", "g"),
   ("གྷ", "gh"),
   ("ང", "ng"),
   ("ཅ", "c"),
   ("ཆ", "ch"),
   ("ཇ", "j"),
   ("ཉ", "ny"),
   ("ཏ", "t"),
   ("ཐ", "th"),
   ("ད", "d"),
   ("དྷ", "dh"),
   ("ན", "n"),
   ("པ", "p"),
   ("ཕ", "ph"),
   ("བ", "b"),
   ("བྷ", "bh"),
   ("མ", "m"),
   ("ཙ", "ts"),
   ("ཚ", "tsh"),
   ("ཛ", "dz"),
   ("ཛྷ", "dzh"),
   ("ཝ", "w"),
   ("ཞ", "zh"),
   ("ཟ", "z"),
   ("འ", "'"),
   ("ཡ", "y"),
   ("ར", "r"),
   ("ལ", "l"),
   ("ཤ", "sh"),
   ("ཥ", "Sha"),
   ("ས", "s"),
   ("ཧ", "h"),
   ("ཨ", "a"),
   ("ཊ", "Ta"),
   ("ཋ", "Tha"),
   ("ཌ", "Da"),
   ("ཌྷ", "Dha"),
   ("ཎ", "Na"),
   ("ཀྵ", "kss"),
   ("", "a"),
   ("ི", "i"),
   ("ུ", "u"),
   ("ེ", "e"),
   ("ོ", "o"),
   ("ཱ", "A"),
   ("ཱུ", "U"),
   ("ྀ", "-i"),
   ("ཱྀ", "-I"),
   ("ྲ", "r"),
   ("ླ", "l"),
   ("ྱ", "y"),
   ("ྭ", "w"),
   ("ྨ", "m"),
   ("་", " "),
   ("༌", "*"),
   ("།", "/"),
   ("༎", ":"),
   ("༏", ";"),
   ("༈", "!"),
   ("༵", "_"),
   ("ཾ", "M"),
   ("ཿ", "H"),
   ("༠", "0"),
   ("༡", "1"),
   ("༢", "2"),
   ("༣", "3"),
   ("༤", "4"),
   ("༥", "5"),
   ("༦", "6"),
   ("༧", "7"),
   ("༨", "8"),
   ("༩", "9"),
   ("ྐ", "k"),
   ("ྑ", "kh"),
   ("ྒ", "g"),
   ("ྒྷ", "gh"),
   ("ྔ", "ng"),
   ("ྕ", "c"),
   ("ྖ", "ch"),
   ("ྗ", "j"),
   ("ྙ", "ny"),
   ("ྟ", "t"),
   ("ྠ", "th"),
   ("ྡ", "d"),
   ("ྡྷ", "dh"),
   ("ྣ", "n"),
   ("ྤ", "p"),
   ("ྥ", "ph"),
   ("ྦ", "b"),
   ("ྦྷ", "bh"),
   ("ྩ", "ts"),
   ("ྪ", "tsh"),
   ("ྫ", "dz"),
   ("ྫྷ", "dzh"),
   ("ྮ", "zh"),
   ("ྯ", "z"),
   ("ྰ", "'"),
   ("ྴ", "sh"),
   ("ྵ", "Sh"),
   ("ྶ", "s"),
   ("ྷ", "h"),
   ("ྸ", "a"),
   ("ྚ", "T"),
   ("ྛ", "Th"),
   ("ྜ", "D"),
   ("ྜྷ", "Dh"),
   ("ྞ", "N"),
   ("ྐྵ", "kss"),
   ("ྃ", "M"),
   ("ཀྵ", "kss")]

/-- Kernel-evaluable snapshot of the computed `_consonants` reverse table
(`revConsonantsTable_eq` checks it against the construction above). -/
def revConsonantsTable : List (String × String) :=
  [("ཀ", "k"),
   ("ཁ", "kh"),
   ("ག", "g"),
   ("གྷ", "gh"),
   ("ང", "ng"),
   ("ཅ", "c"),
   ("ཆ", "ch"),
   ("ཇ", "j"),
   ("ཉ", "ny"),
   ("ཏ", "t"),
   ("ཐ", "th"),
   ("ད", "d"),
   ("དྷ", "dh"),
   ("ན", "n"),
   ("པ", "p"),
   ("ཕ", "ph"),
   ("བ", "b"),
   ("བྷ", "bh"),
   ("མ", "m"),
   ("ཙ", "ts"),
   ("ཚ", "tsh"),
   ("ཛ", "dz"),
   ("ཛྷ", "dzh"),
   ("ཝ", "w"),
   ("ཞ", "zh"),
   ("ཟ", "z"),
   ("འ", "'"),
   ("ཡ", "y"),
   ("ར", "r"),
   ("ལ", "l"),
   ("ཤ", "sh"),
   ("ཥ", "ss"),
   ("ས", "s"),
   ("ཧ", "h"),
   ("ཨ", "a"),
   ("ཊ", "tt"),
   ("ཋ", "tth"),
   ("ཌ", "dd"),
   ("ཌྷ", "ddh"),
   ("ཎ", "nn"),
   ("ཀྵ", "kss"),
   ("ཀྵ", "kss")]

/-- Kernel-evaluable snapshot of the computed `_vowels` reverse table
(`revVowelsTable_eq` checks it against the construction above). -/
def revVowelsTable : List (String × String) :=
  [("", "a"),
   ("ི", "i"),
   ("ུ", "u"),
   ("ེ", "e"),
   ("ོ", "o"),
   ("ཱ", "A"),
   ("ཱུ", "U"),
   ("ྀ", "-i"),
   ("ཱྀ", "-I")]

/-- Kernel-evaluable snapshot of the computed `_punctuation` reverse table
(`revPunctuationTable_eq` checks it against the construction above). -/
def revPunctuationTable : List (String × String) :=
  [("་", " "),
   ("༌", "*"),
   ("།", "/"),
   ("༎", ":"),
   ("༏", ";"),
   ("༈", "!"),
   ("༵", "_")]

set_option maxRecDepth 4000 in
/-- The snapshot tables agree with the constructed reverse index. -/
theorem reverseTables_eq :
    allCharsTable = allChars ∧ revConsonantsTable = revConsonants ∧
    revVowelsTable = revVowels ∧ revPunctuationTable = revPunctuation := by
  decide

/-- `get_wylie`: compound sequences first, then single characters; the
empty string when nothing is mapped. -/
def getWylie (u : String) : String :=
  if 1 < u.length ∧ hasKey allCharsTable u then dictGetD allCharsTable u ""
  else dictGetD allCharsTable u ""

/-- `is_consonant`. -/
def isRevConsonant (c : Char) : Bool :=
  hasKey revConsonantsTable (String.mk [c])

/-- `is_vowel`. -/
def isRevVowel (c : Char) : Bool :=
  hasKey revVowelsTable (String.mk [c])

/-- `is_punctuation`. -/
def isRevPunctuation (c : Char) : Bool :=
  hasKey revPunctuationTable (String.mk [c])

/-- `is_tsheg`. -/
def isTsheg (c : Char) : Bool :=
  c = '་'

/-! ## `TibetanToWylieTransliterator` (tibetan_to_wylie.py) -/

/-- `TibetanToWylieTransliterator.PRESCRIPTS`. -/
def revPrescriptSet : List String := ["g", "d", "b", "m", "'"]

/-- `TibetanToWylieTransliterator.SUPERSCRIPTS`. -/
def revSuperscriptSet : List String := ["r", "l", "s"]

/-- Is a codepoint in the subjoined block `U+0F90..U+0FBC`? -/
def inSubjoinedRange (c : Char) : Bool :=
  0xF90 ≤ c.toNat ∧ c.toNat ≤ 0xFBC

/-- Strip one trailing `'a'` from a multi-letter spelling (`wylie[:-1] if
wylie.endswith('a') and len(wylie) > 1 else wylie`). -/
def stripTrailingA (w : String) : String :=
  if w.data.getLast? = some 'a' ∧ 1 < w.length then String.mk w.data.dropLast
  else w

/-- Step 4 of the reverse `_match_syllable`: consume subjoined-range
codepoints with a known reverse spelling as subscripts. -/
def revTakeSubscripts : List Char → List String × Nat
  | [] => ([], 0)
  | c :: rest =>
    if inSubjoinedRange c then
      let w := getWylie (String.mk [c])
      if w ≠ "" then
        let (ws, n) := revTakeSubscripts rest
        (w :: ws, n + 1)
      else ([], 0)
    else ([], 0)

/-- Step 6 of the reverse `_match_syllable`: consume base consonants with a
known reverse spelling as postscripts, stripping the trailing inherent
`a`. -/
def revTakePostscripts : List Char → List String × Nat
  | [] => ([], 0)
  | c :: rest =>
    if isRevConsonant c then
      let w := getWylie (String.mk [c])
      if w ≠ "" then
        let (ws, n) := revTakePostscripts rest
        (stripTrailingA w :: ws, n + 1)
      else ([], 0)
    else ([], 0)

/-- Step 7 of the reverse `_match_syllable`: consume trailing Sanskrit
marks. -/
def revTakeMarks : List Char → List String × Nat
  | [] => ([], 0)
  | c :: rest =>
    if ['ཾ', 'ཿ', 'ྃ'].contains c then
      let w := getWylie (String.mk [c])
      if w ≠ "" then
        let (ws, n) := revTakeMarks rest
        (w :: ws, n + 1)
      else ([], 0)
    else ([], 0)

/-- The reverse `_match_syllable`: walk prescript, superscript, root,
subscripts, vowel, postscripts and marks off the codepoint sequence and
render the EWTS spelling with inherent-vowel insertion and the
vowel-initial collapse. -/
def revMatchSyllable (text : List Char) : String × Nat :=
  match text with
  | [] => ("", 0)
  | _ :: _ =>
    -- Step 1: prescript, only before another base (not subjoined) consonant
    let preRes : Option String × Nat :=
      match text.head? with
      | some c0 =>
        if isRevConsonant c0 then
          let w := getWylie (String.mk [c0])
          if w ≠ "" ∧ revPrescriptSet.contains (stripTrailingA w) then
            match text[1]? with
            | some c1 =>
              if isRevConsonant c1 ∧ ¬ inSubjoinedRange c1 = true then
                (some (stripTrailingA w), 1)
              else (none, 0)
            | none => (none, 0)
          else (none, 0)
        else (none, 0)
      | none => (none, 0)
    let prescript := preRes.1
    let pos0 := preRes.2
    -- Step 2: superscript, only before a subjoined codepoint
    let supRes : Option String × Nat :=
      match (text.drop pos0).head? with
      | some c0 =>
        if isRevConsonant c0 then
          let w := getWylie (String.mk [c0])
          if w ≠ "" ∧ revSuperscriptSet.contains (stripTrailingA w) then
            match (text.drop pos0)[1]? with
            | some c1 =>
              if inSubjoinedRange c1 then (some (stripTrailingA w), pos0 + 1)
              else (none, pos0)
            | none => (none, pos0)
          else (none, pos0)
        else (none, pos0)
      | none => (none, pos0)
    let superscript := supRes.1
    let pos1 := supRes.2
    -- Step 3: root (subjoined when a superscript was found, else base)
    let rootRes : Option String × Nat :=
      match (text.drop pos1).head? with
      | some c0 =>
        if superscript.isSome ∧ inSubjoinedRange c0 = true then
          let w := getWylie (String.mk [c0])
          if w ≠ "" then (some w, pos1 + 1) else (none, pos1)
        else if isRevConsonant c0 then
          let w := getWylie (String.mk [c0])
          if w ≠ "" then (some (stripTrailingA w), pos1 + 1) else (none, pos1)
        else (none, pos1)
      | none => (none, pos1)
    match rootRes.1 with
    | none => ("", 0)
    | some root =>
      let pos2 := rootRes.2
      -- Step 4: subscripts
      let (subscriptsW, nSub) := revTakeSubscripts (text.drop pos2)
      let pos3 := pos2 + nSub
      -- Step 5: vowel (two-codepoint compounds first)
      let vowelRes : Option String × Nat × Bool :=
        if pos3 < text.length then
          let compound :=
            if pos3 + 1 < text.length then
              getWylie (String.mk ((text.drop pos3).take 2))
            else ""
          if compound ≠ "" then (some compound, pos3 + 2, true)
          else
            match (text.drop pos3).head? with
            | some c0 =>
              if isRevVowel c0 then
                let w := getWylie (String.mk [c0])
                if w ≠ "" ∧ w ≠ "a" then (some w, pos3 + 1, true)
                else (none, pos3 + 1, false)
              else (none, pos3, false)
            | none => (none, pos3, false)
        else (none, pos3, false)
      let vowel := vowelRes.1
      let pos4 := vowelRes.2.1
      let hasExplicitVowel := vowelRes.2.2
      -- Step 6: postscripts
      let (postscriptsW, nPost) := revTakePostscripts (text.drop pos4)
      let pos5 := pos4 + nPost
      -- Step 7: Sanskrit marks
      let (marksW, nMarks) := revTakeMarks (text.drop pos5)
      let pos6 := pos5 + nMarks
      -- build the Wylie rendering
      let isVowelInitial :=
        root == "a" && hasExplicitVowel && subscriptsW.isEmpty &&
        prescript.isNone && superscript.isNone
      let core :=
        if isVowelInitial then vowel.getD ""
        else
          let rootPart := root ++ String.join subscriptsW
          let rootPart :=
            if ¬ hasExplicitVowel ∧ root ≠ "a" then rootPart ++ "a" else rootPart
          rootPart ++ (match vowel with
            | some v => v
            | none => "")
      ((prescript.getD "") ++ (superscript.getD "") ++ core ++
        String.join postscriptsW ++ String.join marksW, pos6)

/-- The scan loop of `TibetanToWylieTransliterator.transliterate`, with an
explicit fuel argument. -/
def revTransLoop (fuel : Nat) (t : List Char) (acc : List String) : Option String :=
  match fuel, t with
  | _, [] => some (String.join acc.reverse)
  | 0, _ :: _ => none
  | fuel + 1, c :: rest =>
    if isTsheg c then revTransLoop fuel rest (" " :: acc)
    else if 0xF20 ≤ c.toNat ∧ c.toNat ≤ 0xF29 then
      let w := getWylie (String.mk [c])
      revTransLoop fuel rest ((if w ≠ "" then w else String.mk [c]) :: acc)
    else if isRevPunctuation c then
      if c = '༎' then revTransLoop fuel rest ("//" :: acc)
      else
        let w := getWylie (String.mk [c])
        revTransLoop fuel rest ((if w ≠ "" then w else String.mk [c]) :: acc)
    else if ['ཾ', 'ཿ', 'ྃ'].contains c then
      let w := getWylie (String.mk [c])
      revTransLoop fuel rest ((if w ≠ "" then w else String.mk [c]) :: acc)
    else
      -- two-codepoint compound (e.g. the kss ligature)
      let compound :=
        if rest ≠ [] then getWylie (String.mk ((c :: rest).take 2)) else ""
      if compound ≠ "" then
        revTransLoop fuel ((c :: rest).drop 2) (compound :: acc)
      else
        let syl := revMatchSyllable (c :: rest)
        if syl.1 ≠ "" then
          revTransLoop fuel ((c :: rest).drop syl.2) (syl.1 :: acc)
        else
          revTransLoop fuel rest (String.mk [c] :: acc)

/-- `TibetanToWylieTransliterator.transliterate` (the empty input returns
the empty string immediately in the source). -/
def unicodeToWylieOpt (s : String) : Option String :=
  if s = "" then some ""
  else revTransLoop s.data.length s.data []

/-- The reverse transliterator as a plain function. -/
def unicodeToWylie (s : String) : String :=
  (unicodeToWylieOpt s).getD ""

/-! ## `SyllableStructureRules` and result types (validation_rules.py) -/

/-- `VALID_PRESCRIPT_COMBINATIONS`. -/
def validPrescriptCombinations : List (String × List String) :=
  [("g", ["n", "ny", "s", "sh", "ts", "y", "z"]),
   ("d", ["k", "g", "ng", "p", "b", "m", "w", "n", "ny", "r", "l", "s", "ts"]),
   ("b", ["k", "g", "c", "j", "ng", "s", "sh", "r", "l", "d", "ts", "w", "z", "zh", "kss"]),
   ("m", ["kh", "g", "ng", "ch", "j", "ny", "th", "d", "n", "dz", "ts", "tsh"]),
   ("'", ["a"])]

/-- `VALID_SUPERSCRIPT_COMBINATIONS` (the validator's structural rule table
for superscripts; the parser's `SyllableRules` has no such table). -/
def validSuperscriptCombinations : List (String × List String) :=
  [("r", ["k", "g", "ng", "j", "ny", "t", "d", "n", "b", "m", "ts", "dz"]),
   ("l", ["k", "g", "ng", "c", "j", "p", "b", "h"]),
   ("s", ["k", "g", "ng", "ny", "t", "d", "n", "p", "b", "m", "ts"])]

/-- `VALID_SUBSCRIPT_COMBINATIONS`. -/
def validSubscriptCombinations : List (String × List String) :=
  [("r", ["k", "kh", "g", "t", "th", "d", "p", "ph", "b", "s", "h",
          "tt", "tth", "dd", "ddh"]),
   ("l", ["k", "g", "s", "z", "r"]),
   ("y", ["k", "kh", "g", "p", "ph", "b", "m", "s", "h"]),
   ("w", ["k", "kh", "g", "t", "th", "d", "ts", "tsh", "zh", "z",
          "s", "r", "l", "sh", "h"]),
   ("m", ["k", "kh", "g", "ng", "c", "ch", "j", "ny", "t", "th", "d", "n",
          "p", "ph", "b", "m", "ts", "tsh", "dz", "w", "zh", "z", "s", "h",
          "r", "l", "sh"]),
   ("r+w", ["g", "d"]),
   ("r+l", ["k"])]

/-- `VALID_POSTSCRIPTS`. -/
def validPostscripts : List String :=
  ["g", "ng", "d", "n", "b", "m", "r", "l", "s"]

/-- `VALID_SECOND_POSTSCRIPTS`. -/
def validSecondPostscripts : List String := ["s", "d"]

/-- Look up an allowed-roots set in a structural rule table
(`table.get(key, frozenset())`). -/
def ruleRoots (tbl : List (String × List String)) (k : String) : List String :=
  ((tbl.find? (fun p => p.1 == k)).map (·.2)).getD []

/-- Ascending lexicographic comparison of character lists by codepoint,
matching Python string comparison. -/
def charListLe : List Char → List Char → Bool
  | [], _ => true
  | _ :: _, [] => false
  | a :: as, b :: bs =>
    if a.toNat < b.toNat then true
    else if b.toNat < a.toNat then false
    else charListLe as bs

/-- Insert into an ascending lexicographically sorted list. -/
def insLex (s : String) : List String → List String
  | [] => [s]
  | x :: xs => if charListLe s.data x.data then s :: x :: xs else x :: insLex s xs

/-- Python's `sorted` on a collection of strings. -/
def sortedLex (l : List String) : List String :=
  l.foldr insLex []

/-- `ValidationError` (validation_rules.py). -/
structure ValidationError where
  errorType : String
  position : Nat
  syllable : String
  message : String
  suggestion : String
  deriving Repr, DecidableEq

/-- `ValidationResult` (validation_rules.py). -/
structure ValidationResult where
  isValid : Bool
  errors : List ValidationError
  warnings : List ValidationError
  deriving Repr, DecidableEq

/-! ## `WylieValidator` (wylie_validator.py) -/

/-- `_initialize_valid_characters`: the keys of all seven mapping tables,
the structural characters, the digits, and every capital letter.  The
Python value is a set; only membership is ever used, so the duplicate
entries of this list are harmless. -/
def validChars : List String :=
  keysOf consonants ++ keysOf vowels ++ keysOf subscripts ++
  keysOf punctuation ++ keysOf sanskritMarks ++ keysOf numerals ++
  keysOf sanskritRetroflex ++
  [" ", "\n", "\t", "/", "|", "+", "'", ".", "-", "~"] ++
  ("0123456789".data.map fun c => String.mk [c]) ++
  ("ABCDEFGHIJKLMNOPQRSTUVWXYZ".data.map fun c => String.mk [c])

/-- Membership in the valid-character set. -/
def isValidCharStr (s : String) : Bool :=
  validChars.contains s

/-- `_tokenize`: split on whitespace, slash and pipe, keeping the
separators as their own tokens.  `current` holds the characters of the
pending token in reverse. -/
def tokenizeAux (current : List Char) : List Char → List (List Char)
  | [] => if current.isEmpty then [] else [current.reverse]
  | c :: rest =>
    if [' ', '\t', '\n', '/', '|'].contains c then
      (if current.isEmpty then [] else [current.reverse]) ++
        ([c] :: tokenizeAux [] rest)
    else tokenizeAux (c :: current) rest

/-- `_tokenize` on a whole text. -/
def tokenize (t : List Char) : List (List Char) :=
  tokenizeAux [] t

/-- `_is_punctuation_only`. -/
def isPunctuationOnly (t : List Char) : Bool :=
  t.all fun c => [' ', '\t', '\n', '/', '|', '.'].contains c

/-- The scan of `_find_unknown_characters`, skipping over valid sequences
of length 3, 2 or 1 and collecting the characters that are not in the
valid set; fuel-based recursion (every iteration consumes at least one
character, so fuel equal to the token length suffices). -/
def findUnknownAux (fuel : Nat) (t : List Char) : List Char :=
  match fuel, t with
  | _, [] => []
  | 0, _ :: _ => []
  | fuel + 1, c :: rest =>
    if 3 ≤ (c :: rest).length ∧
        isValidCharStr (String.mk ((c :: rest).take 3)) = true then
      findUnknownAux fuel (rest.drop 2)
    else if 2 ≤ (c :: rest).length ∧
        isValidCharStr (String.mk ((c :: rest).take 2)) = true then
      findUnknownAux fuel (rest.drop 1)
    else if isValidCharStr (String.mk [c]) = true then
      findUnknownAux fuel rest
    else if ¬ isValidCharStr (String.mk [c]) = true then
      c :: findUnknownAux fuel rest
    else
      findUnknownAux fuel rest

/-- `_find_unknown_characters`. -/
def findUnknownCharacters (t : List Char) : List Char :=
  findUnknownAux t.length t

/-- `_is_numeral`. -/
def isNumeralTok (t : List Char) : Bool :=
  t.all fun c => "0123456789".data.contains c

/-- `_is_standalone_vowel`: a bare vowel, or a vowel followed by a Sanskrit
mark. -/
def isStandaloneVowelTok (t : List Char) : Bool :=
  hasKey vowels (String.mk t) ||
  vowelsSorted.any fun v =>
    startsWithStr t v &&
      (hasKey sanskritMarks (String.mk (t.drop v.length)) || t.drop v.length = [])

/-- `_is_sanskrit_mark_only`. -/
def isSanskritMarkOnlyTok (t : List Char) : Bool :=
  hasKey sanskritMarks (String.mk t)

/-- The root matcher shared by the validator's five strategies: longest
consonant spelling matching case-sensitively, or case-insensitively against
the lowercased text; the matched original slice is kept in the first case,
the table key in the second. -/
def vroot (t : List Char) : Option (String × Nat) :=
  consonantsSorted.findSome? fun cons =>
    if startsWithStr t cons then some (String.mk (t.take cons.length), cons.length)
    else if startsWithStr (lowerChars t) cons then some (cons, cons.length)
    else none

/-- The vowel matcher used by `_parse_simple`, `_parse_with_subscript` and
`_parse_full`: an explicit `'a'` only counts when more content follows. -/
def vvowelWithA (t : List Char) : Option (String × Nat) :=
  vowelsSorted.findSome? fun v =>
    if startsWithStr t v then
      if v = "a" then (if 1 < t.length then some (v, v.length) else none)
      else some (v, v.length)
    else none

/-- The vowel matcher used by `_parse_with_superscript` and
`_parse_with_prescript` (which skip `'a'` entirely). -/
def vvowelNoA (t : List Char) : Option (String × Nat) :=
  (sortedByLenDesc ((keysOf vowels).filter fun k => k ≠ "a")).findSome? fun v =>
    if startsWithStr t v then some (v, v.length) else none

/-- First-postscript matcher over `VALID_POSTSCRIPTS`. -/
def vpost1 (t : List Char) : Option (String × Nat) :=
  (sortedByLenDesc validPostscripts).findSome? fun post =>
    if startsWithStr (lowerChars t) post then some (post, post.length) else none

/-- Second-postscript matcher over `VALID_SECOND_POSTSCRIPTS`. -/
def vpost2 (t : List Char) : Option (String × Nat) :=
  (sortedByLenDesc validSecondPostscripts).findSome? fun post =>
    if startsWithStr (lowerChars t) post then some (post, post.length) else none

/-- Subscript matcher of `_parse_with_subscript` (up to two implicit
subscripts). -/
def vsubscript (t : List Char) : Option (String × Nat) :=
  match subscriptsSorted.findSome? (fun sub =>
      if startsWithStr (lowerChars t) sub then some sub else none) with
  | none => none
  | some sub =>
    match subscriptsSorted.findSome? (fun sub2 =>
        if startsWithStr (lowerChars (t.drop sub.length)) sub2 then some sub2
        else none) with
    | some sub2 => some (sub ++ "+" ++ sub2, sub.length + sub2.length)
    | none => some (sub, sub.length)

/-- Single-subscript matcher of `_parse_full`. -/
def vsubscriptSingle (t : List Char) : Option (String × Nat) :=
  subscriptsSorted.findSome? fun sub =>
    if startsWithStr (lowerChars t) sub then some (sub, sub.length) else none

/-- Prescript-key matcher of the validator strategies. -/
def vprescriptMatch (t : List Char) : Option (String × Nat) :=
  (sortedByLenDesc (validPrescriptCombinations.map (·.1))).findSome? fun pre =>
    if startsWithStr (lowerChars t) pre then some (pre, pre.length) else none

/-- Superscript-key matcher of the validator strategies. -/
def vsuperscriptMatch (t : List Char) : Option (String × Nat) :=
  (sortedByLenDesc (validSuperscriptCombinations.map (·.1))).findSome? fun sup =>
    if startsWithStr (lowerChars t) sup then some (sup, sup.length) else none

/-- The postscript tail shared by all validator strategies. -/
def vpostscripts (s : List Char) (pos : Nat) :
    Option String × Option String × Nat :=
  match vpost1 (s.drop pos) with
  | some (post1, l1) =>
    match vpost2 (s.drop (pos + l1)) with
    | some (post2, l2) => (some post1, some post2, pos + l1 + l2)
    | none => (some post1, none, pos + l1)
  | none => (none, none, pos)

/-- `_parse_simple`: root [+vowel] [+postscripts]. -/
def vparseSimple (s : List Char) : Option (SyllableComponents × Nat) :=
  match vroot s with
  | none => none
  | some (root, p1) =>
    let vw := vvowelWithA (s.drop p1)
    let p2 := match vw with
      | some (_, l) => p1 + l
      | none => p1
    let (post1, post2, p3) := vpostscripts s p2
    some ({ root := strLower root, vowel := vw.map (·.1),
            postscript1 := post1, postscript2 := post2 }, p3)

/-- `_parse_with_subscript`: root + subscript [+vowel] [+postscripts]. -/
def vparseWithSubscript (s : List Char) : Option (SyllableComponents × Nat) :=
  match vroot s with
  | none => none
  | some (root, p1) =>
    match vsubscript (s.drop p1) with
    | none => none
    | some (sub, sl) =>
      let p2 := p1 + sl
      let vw := vvowelWithA (s.drop p2)
      let p3 := match vw with
        | some (_, l) => p2 + l
        | none => p2
      let (post1, post2, p4) := vpostscripts s p3
      some ({ root := strLower root, subscript := some sub,
              vowel := vw.map (·.1),
              postscript1 := post1, postscript2 := post2 }, p4)

/-- `_parse_with_superscript`: superscript + root [+vowel] [+postscripts]. -/
def vparseWithSuperscript (s : List Char) : Option (SyllableComponents × Nat) :=
  match vsuperscriptMatch s with
  | none => none
  | some (sup, supl) =>
    match vroot (s.drop supl) with
    | none => none
    | some (root, rl) =>
      let p2 := supl + rl
      let vw := vvowelNoA (s.drop p2)
      let p3 := match vw with
        | some (_, l) => p2 + l
        | none => p2
      let (post1, post2, p4) := vpostscripts s p3
      some ({ root := strLower root, superscript := some sup,
              vowel := vw.map (·.1),
              postscript1 := post1, postscript2 := post2 }, p4)

/-- `_parse_with_prescript`: prescript + root [+vowel] [+postscripts]. -/
def vparseWithPrescript (s : List Char) : Option (SyllableComponents × Nat) :=
  match vprescriptMatch s with
  | none => none
  | some (pre, prel) =>
    match vroot (s.drop prel) with
    | none => none
    | some (root, rl) =>
      let p2 := prel + rl
      let vw := vvowelNoA (s.drop p2)
      let p3 := match vw with
        | some (_, l) => p2 + l
        | none => p2
      let (post1, post2, p4) := vpostscripts s p3
      some ({ root := strLower root, prescript := some pre,
              vowel := vw.map (·.1),
              postscript1 := post1, postscript2 := post2 }, p4)

/-- `_parse_full`: [prescript] + [superscript] + root + [subscript] +
[vowel] + [postscripts]; rejected when neither prescript nor superscript
matched (redundant with the simpler strategies). -/
def vparseFull (s : List Char) : Option (SyllableComponents × Nat) :=
  let preRes := vprescriptMatch s
  let p1 := match preRes with
    | some (_, l) => l
    | none => 0
  let supRes := vsuperscriptMatch (s.drop p1)
  let p2 := match supRes with
    | some (_, l) => p1 + l
    | none => p1
  match vroot (s.drop p2) with
  | none => none
  | some (root, rl) =>
    let p3 := p2 + rl
    let subRes := vsubscriptSingle (s.drop p3)
    let p4 := match subRes with
      | some (_, l) => p3 + l
      | none => p3
    let vw := vvowelWithA (s.drop p4)
    let p5 := match vw with
      | some (_, l) => p4 + l
      | none => p4
    let (post1, post2, p6) := vpostscripts s p5
    if preRes.isNone ∧ supRes.isNone then none
    else
      some ({ root := strLower root, prescript := preRes.map (·.1),
              superscript := supRes.map (·.1), subscript := subRes.map (·.1),
              vowel := vw.map (·.1),
              postscript1 := post1, postscript2 := post2 }, p6)

/-- `_validate_components`: check every present slot combination against
the structural rule tables.  Returns `(errors, warnings)`. -/
def validateComponents (c : SyllableComponents) (syllable : String)
    (position : Nat) : List ValidationError × List ValidationError :=
  let preErrs :=
    match c.prescript with
    | some pre =>
      if pre ≠ "" ∧ c.root ≠ "" then
        let validRoots := ruleRoots validPrescriptCombinations pre
        if ¬ validRoots.contains c.root = true then
          [{ errorType := "invalid_prescript", position := position,
             syllable := syllable,
             message := "Invalid prescript '" ++ pre ++ "' before root '" ++
               c.root ++ "'",
             suggestion := "Valid roots after '" ++ pre ++ "': " ++
               String.intercalate ", " (sortedLex validRoots) }]
        else []
      else []
    | none => []
  let supErrs :=
    match c.superscript with
    | some sup =>
      if sup ≠ "" ∧ c.root ≠ "" then
        let validRoots := ruleRoots validSuperscriptCombinations sup
        if ¬ validRoots.contains c.root = true then
          [{ errorType := "invalid_superscript", position := position,
             syllable := syllable,
             message := "Invalid superscript '" ++ sup ++ "' above root '" ++
               c.root ++ "'",
             suggestion := "Valid roots under '" ++ sup ++ "': " ++
               String.intercalate ", " (sortedLex validRoots) }]
        else []
      else []
    | none => []
  let subResult : List ValidationError × List ValidationError :=
    match c.subscript with
    | some sub =>
      if sub ≠ "" ∧ c.root ≠ "" then
        let validRoots := ruleRoots validSubscriptCombinations sub
        if validRoots ≠ [] ∧ ¬ validRoots.contains c.root = true then
          ([{ errorType := "invalid_subscript", position := position,
              syllable := syllable,
              message := "Invalid subscript '" ++ sub ++ "' below root '" ++
                c.root ++ "'",
              suggestion := "Valid roots above '" ++ sub ++ "': " ++
                String.intercalate ", " (sortedLex validRoots) }], [])
        else if validRoots = [] then
          ([], [{ errorType := "ambiguous_parsing", position := position,
                  syllable := syllable,
                  message := "Unusual subscript combination '" ++ sub ++
                    "' with root '" ++ c.root ++ "'",
                  suggestion := "Verify this is correct EWTS" }])
        else ([], [])
      else ([], [])
    | none => ([], [])
  let post1Errs :=
    match c.postscript1 with
    | some p1 =>
      if p1 ≠ "" ∧ ¬ validPostscripts.contains p1 = true then
        [{ errorType := "invalid_postscript", position := position,
           syllable := syllable,
           message := "Invalid postscript '" ++ p1 ++ "'",
           suggestion := "Valid postscripts: " ++
             String.intercalate ", " (sortedLex validPostscripts) }]
      else []
    | none => []
  let post2Errs :=
    match c.postscript2 with
    | some p2 =>
      if p2 ≠ "" ∧ ¬ validSecondPostscripts.contains p2 = true then
        [{ errorType := "invalid_postscript", position := position,
           syllable := syllable,
           message := "Invalid second postscript '" ++ p2 ++ "'",
           suggestion := "Valid second postscripts: " ++
             String.intercalate ", " (sortedLex validSecondPostscripts) }]
      else []
    | none => []
  (preErrs ++ supErrs ++ subResult.1 ++ post1Errs ++ post2Errs, subResult.2)

/-- One analysed parse attempt of `_parse_syllable_structure`. -/
structure VParse where
  components : SyllableComponents
  length : Nat
  errors : List ValidationError
  warnings : List ValidationError

/-- Python's `max(l, key=length)`: first entry of maximal length. -/
def pickMaxByLen (l : List VParse) : Option SyllableComponents :=
  match l with
  | [] => none
  | x :: xs =>
    some ((xs.foldl (fun best y => if best.length < y.length then y else best) x).components)

/-- Python's `min(l, key=(error count, -length))`: first entry with the
fewest errors, breaking ties by the greater length. -/
def pickMinByErrs (l : List VParse) : Option SyllableComponents :=
  match l with
  | [] => none
  | x :: xs =>
    some ((xs.foldl (fun best y =>
      if y.errors.length < best.errors.length ∨
          (y.errors.length = best.errors.length ∧ best.length < y.length) then y
      else best) x).components)

/-- `_parse_syllable_structure`: run the five strategies, classify each
result by validity and completeness, and select the best parse. -/
def parseSyllableStructure (syllable : List Char) : Option SyllableComponents :=
  let analyse := fun (r : Option (SyllableComponents × Nat)) =>
    match r with
    | some (c, l) =>
      if 0 < l then
        let (errs, warns) := validateComponents c (String.mk syllable) 0
        [({ components := c, length := l, errors := errs, warnings := warns : VParse})]
      else []
    | none => []
  let results :=
    analyse (vparseSimple syllable) ++ analyse (vparseWithSubscript syllable) ++
    analyse (vparseWithSuperscript syllable) ++
    analyse (vparseWithPrescript syllable) ++ analyse (vparseFull syllable)
  let validParses := results.filter fun r => r.errors.length = 0
  let invalidParses := results.filter fun r => r.errors.length ≠ 0
  let completeValid := validParses.filter fun r => syllable.length - 1 ≤ r.length
  let completeInvalid := invalidParses.filter fun r => syllable.length - 1 ≤ r.length
  if completeValid.isEmpty = false then pickMaxByLen completeValid
  else if completeInvalid.isEmpty = false then pickMinByErrs completeInvalid
  else if validParses.isEmpty = false then pickMaxByLen validParses
  else if invalidParses.isEmpty = false then pickMinByErrs invalidParses
  else none

/-- `_validate_syllable`: unknown characters first (stopping further
checks), then the trivially valid token shapes, then structural parsing and
component validation. -/
def validateSyllable (syllable : List Char) (position : Nat) :
    List ValidationError × List ValidationError :=
  let unknown := findUnknownCharacters syllable
  if unknown ≠ [] then
    ([{ errorType := "unknown_character", position := position,
        syllable := String.mk syllable,
        message := "Unknown characters: " ++
          String.intercalate ", " (unknown.map fun c => String.mk [c]),
        suggestion := "Check EWTS character list" }], [])
  else if isNumeralTok syllable then ([], [])
  else if isStandaloneVowelTok syllable then ([], [])
  else if isSanskritMarkOnlyTok syllable then ([], [])
  else
    match parseSyllableStructure syllable with
    | none =>
      ([{ errorType := "invalid_syllable_structure", position := position,
          syllable := String.mk syllable,
          message := "Cannot parse syllable structure",
          suggestion := "Check syllable component order" }], [])
    | some components =>
      validateComponents components (String.mk syllable) position

/-- The token loop of `WylieValidator.validate`, accumulating errors and
warnings in token order while tracking the running position. -/
def validateLoop (tokens : List (List Char)) (position : Nat) :
    List ValidationError × List ValidationError :=
  match tokens with
  | [] => ([], [])
  | tok :: rest =>
    if isPunctuationOnly tok then validateLoop rest (position + tok.length)
    else
      let (es, ws) := validateSyllable tok position
      let (es2, ws2) := validateLoop rest (position + tok.length)
      (es ++ es2, ws ++ ws2)

/-- `WylieValidator.validate`. -/
def validate (s : String) : ValidationResult :=
  let (errors, warnings) := validateLoop (tokenize s.data) 0
  { isValid := errors.length == 0, errors := errors, warnings := warnings }

/-! ## Helper lemmas -/

/-- UInt32 order reflects to the natural numbers. -/
theorem uint32_le_iff_toNat_le (a b : UInt32) : a ≤ b ↔ a.toNat ≤ b.toNat := by
  rw [UInt32.le_def, BitVec.le_def]
  rfl

/-- `str.lower()` fixes any character that is not an uppercase letter. -/
theorem char_toLower_of_not_upper {c : Char} (h : c.isUpper = false) :
    c.toLower = c := by
  have hiff : ¬ (c.toNat ≥ 65 ∧ c.toNat ≤ 90) := by
    simp only [Char.isUpper, Bool.and_eq_false_iff, decide_eq_false_iff_not] at h
    rcases h with h | h
    · intro ⟨h1, _⟩
      exact h ((uint32_le_iff_toNat_le 65 c.val).mpr h1)
    · intro ⟨_, h2⟩
      exact h ((uint32_le_iff_toNat_le c.val 90).mpr h2)
  simp [Char.toLower, hiff]

/-- Only `'a'` and `'A'` lowercase to `'a'`. -/
theorem char_toLower_eq_a {c : Char} (h : c.toLower = 'a') : c = 'a' ∨ c = 'A' := by
  by_cases hc : c.toNat ≥ 65 ∧ c.toNat ≤ 90
  · right
    simp only [Char.toLower] at h
    rw [if_pos hc] at h
    have hval : (Char.ofNat (c.toNat + 32)).toNat = c.toNat + 32 := by
      have hvalid : Nat.isValidChar (c.toNat + 32) := by
        left
        omega
      simp only [Char.ofNat, Char.ofNatAux, Char.toNat]
      split
      · rfl
      · exact absurd hvalid (by assumption)
    rw [h] at hval
    have h97 : ('a' : Char).toNat = 97 := rfl
    have hc65 : c.toNat = 65 := by omega
    have : c.val = ('A' : Char).val := by
      apply UInt32.eq_of_toBitVec_eq
      apply BitVec.eq_of_toNat_eq
      simpa [Char.toNat, UInt32.toNat] using hc65
    exact Char.eq_of_val_eq this
  · left
    simp only [Char.toLower] at h
    rwa [if_neg hc] at h

/-- A successful `startsWithStr` gives the literal prefix. -/
theorem startsWithStr_take {t : List Char} {p : String}
    (h : startsWithStr t p = true) :
    t.take p.length = p.data ∧ p.length ≤ t.length := by
  have hpre : p.data <+: t := List.isPrefixOf_iff_prefix.mp h
  refine ⟨?_, ?_⟩
  · have := (List.prefix_iff_eq_take.mp hpre).symm
    exact this.symm ▸ rfl
  · exact hpre.length_le

/-- Lowercasing fixes a list of characters without uppercase letters. -/
theorem lowerChars_id {l : List Char} (h : ∀ c ∈ l, c.isUpper = false) :
    lowerChars l = l := by
  induction l with
  | nil => rfl
  | cons c rest ih =>
    simp only [lowerChars, List.map_cons]
    rw [char_toLower_of_not_upper (h c (List.mem_cons_self c rest))]
    have := ih (fun c' hc' => h c' (List.mem_cons_of_mem c hc'))
    simp only [lowerChars] at this
    rw [this]

/-- The normalizer loop is the identity on text without uppercase
characters: every branch that could change the text requires an uppercase
character at the current position. -/
theorem normalizeLoop_id (fuel : Nat) (prev : Option Char) (t : List Char)
    (h : ∀ c ∈ t, c.isUpper = false) :
    normalizeLoop fuel prev t = t := by
  induction fuel generalizing prev t with
  | zero => cases t <;> rfl
  | succ fuel ih =>
    match t with
    | [] => rfl
    | c :: rest =>
      have hc : c.isUpper = false := h c (List.mem_cons_self c rest)
      have hrest : ∀ c' ∈ rest, c'.isUpper = false :=
        fun c' hc' => h c' (List.mem_cons_of_mem c hc')
      have hT : c ≠ 'T' := fun he => by rw [he] at hc; simp at hc
      have hD : c ≠ 'D' := fun he => by rw [he] at hc; simp at hc
      have hS : c ≠ 'S' := fun he => by rw [he] at hc; simp at hc
      have hN : c ≠ 'N' := fun he => by rw [he] at hc; simp at hc
      have hA : c ≠ 'A' := fun he => by rw [he] at hc; simp at hc
      have hM : c ≠ 'M' := fun he => by rw [he] at hc; simp at hc
      have hH : c ≠ 'H' := fun he => by rw [he] at hc; simp at hc
      have hsw : ∀ (p : Char) (ps : List Char), c ≠ p →
          ((p :: ps).isPrefixOf (c :: rest)) = false := by
        intro p ps hne
        show ((p == c) && ps.isPrefixOf rest) = false
        have hpc : (p == c) = false := by
          apply beq_eq_false_iff_ne.mpr
          intro he
          exact hne he.symm
        rw [hpc, Bool.false_and]
      have hTha : startsWithStr (c :: rest) "Tha" = false := hsw 'T' ['h', 'a'] hT
      have hDha : startsWithStr (c :: rest) "Dha" = false := hsw 'D' ['h', 'a'] hD
      have hSha : startsWithStr (c :: rest) "Sha" = false := hsw 'S' ['h', 'a'] hS
      have hTa : startsWithStr (c :: rest) "Ta" = false := hsw 'T' ['a'] hT
      have hDa : startsWithStr (c :: rest) "Da" = false := hsw 'D' ['a'] hD
      have hNa : startsWithStr (c :: rest) "Na" = false := hsw 'N' ['a'] hN
      show normalizeStep (normalizeLoop fuel) prev c rest = c :: rest
      rw [normalizeStep]
      rw [if_neg (by rw [hTha]; exact Bool.false_ne_true)]
      rw [if_neg (by rw [hDha]; exact Bool.false_ne_true)]
      rw [if_neg (by rw [hSha]; exact Bool.false_ne_true)]
      rw [if_neg (by rw [hTa]; exact Bool.false_ne_true)]
      rw [if_neg (by rw [hDa]; exact Bool.false_ne_true)]
      rw [if_neg (by rw [hNa]; exact Bool.false_ne_true)]
      rw [if_neg (fun hand => by
        rcases hand with ⟨hmem, -⟩
        simp only [normMarks, List.mem_cons, List.not_mem_nil, or_false] at hmem
        rcases hmem with he | he
        · exact hM he
        · exact hH he)]
      rw [if_neg hA]
      by_cases h4 : 4 ≤ (c :: rest).length ∧
          hasKey consonants (String.mk (lowerChars ((c :: rest).take 4)))
      · rw [if_pos h4]
        rw [lowerChars_id (fun c' hc' => h c' (List.take_subset 4 _ hc'))]
        have hdrop : rest.drop 3 = (c :: rest).drop 4 := rfl
        rw [hdrop, ih _ _ (fun c' hc' => h c' (List.drop_subset 4 _ hc'))]
        exact List.take_append_drop 4 (c :: rest)
      · rw [if_neg h4]
        by_cases h3 : 3 ≤ (c :: rest).length ∧
            hasKey consonants (String.mk (lowerChars ((c :: rest).take 3)))
        · rw [if_pos h3]
          rw [lowerChars_id (fun c' hc' => h c' (List.take_subset 3 _ hc'))]
          have hdrop : rest.drop 2 = (c :: rest).drop 3 := rfl
          rw [hdrop, ih _ _ (fun c' hc' => h c' (List.drop_subset 3 _ hc'))]
          exact List.take_append_drop 3 (c :: rest)
        · rw [if_neg h3]
          by_cases h2 : 2 ≤ (c :: rest).length ∧
              hasKey consonants (String.mk (lowerChars ((c :: rest).take 2)))
          · rw [if_pos h2]
            rw [lowerChars_id (fun c' hc' => h c' (List.take_subset 2 _ hc'))]
            have hdrop : rest.drop 1 = (c :: rest).drop 2 := rfl
            rw [hdrop, ih _ _ (fun c' hc' => h c' (List.drop_subset 2 _ hc'))]
            exact List.take_append_drop 2 (c :: rest)
          · rw [if_neg h2]
            rw [if_neg (by rw [hc]; exact Bool.false_ne_true)]
            rw [ih _ _ hrest]

/-! ## Progress lemmas for the forward scanner (claim C9) -/


theorem matchPunctuation_progress {t : List Char}
    (h : (matchPunctuation t).1 ≠ "") : 1 ≤ (matchPunctuation t).2 := by
  by_cases h2 : 2 ≤ t.length ∧ hasKey punctuation (String.mk (t.take 2)) = true
  · rw [matchPunctuation, if_pos h2]
    exact (by decide : (1 : Nat) ≤ 2)
  · by_cases h1 : 1 ≤ t.length ∧ hasKey punctuation (String.mk (t.take 1)) = true
    · rw [matchPunctuation, if_neg h2, if_pos h1]
    · exfalso
      apply h
      rw [matchPunctuation, if_neg h2, if_neg h1]

theorem matchSanskritMark_progress {t : List Char} {prev : String}
    (h : (matchSanskritMark t prev).1 ≠ "") : 1 ≤ (matchSanskritMark t prev).2 := by
  by_cases h2 : 2 ≤ t.length ∧ hasKey sanskritMarks (String.mk (t.take 2)) = true
  · rw [matchSanskritMark, if_pos h2]
    exact (by decide : (1 : Nat) ≤ 2)
  · by_cases h1 : 1 ≤ t.length ∧ hasKey sanskritMarks (String.mk (t.take 1)) = true
    · rw [matchSanskritMark, if_neg h2, if_pos h1]
    · exfalso
      apply h
      rw [matchSanskritMark, if_neg h2, if_neg h1]

theorem standaloneVowelKeys_len : ∀ v ∈ standaloneVowelKeys, 1 ≤ v.length := by
  decide

theorem matchStandaloneVowel_progress {t : List Char}
    (h : (matchStandaloneVowel t).1 ≠ "") : 1 ≤ (matchStandaloneVowel t).2 := by
  unfold matchStandaloneVowel at *
  rcases hf : standaloneVowelFind t with _ | r
  · rw [hf] at h
    exact absurd rfl h
  · obtain ⟨v, hv, hfv⟩ := List.exists_of_findSome?_eq_some hf
    split at hfv
    · split at hfv
      · injection hfv with he
        show 1 ≤ r.2
        rw [← he]
        exact standaloneVowelKeys_len v hv
      · cases hfv
    · cases hfv

theorem prescripts_len : ∀ p ∈ sortedByLenDesc rulesPrescripts, 1 ≤ p.length := by
  decide

theorem superscripts_len : ∀ p ∈ sortedByLenDesc rulesSuperscripts, 1 ≤ p.length := by
  decide

theorem vowelsSorted_len : ∀ v ∈ vowelsSorted, 1 ≤ v.length := by
  decide

theorem consonantsSorted_len : ∀ k ∈ consonantsSorted, 1 ≤ k.length := by
  decide

theorem consonantsSorted_lower_a :
    ∀ k ∈ consonantsSorted, strLower k = "a" → k = "a" := by
  decide

theorem matchPrescript_some {t : List Char} {p : String} {n : Nat}
    (h : matchPrescript t = some (p, n)) : n = p.length ∧ 1 ≤ p.length := by
  unfold matchPrescript at h
  obtain ⟨pre, hmem, hf⟩ := List.exists_of_findSome?_eq_some h
  split at hf
  · rw [Option.some.injEq, Prod.mk.injEq] at hf
    obtain ⟨h1, h2⟩ := hf
    subst h1
    exact ⟨h2.symm, prescripts_len _ hmem⟩
  · cases hf

theorem matchSuperscript_some {t : List Char} {p : String} {n : Nat}
    (h : matchSuperscript t = some (p, n)) : n = p.length ∧ 1 ≤ p.length := by
  unfold matchSuperscript at h
  obtain ⟨sup, hmem, hf⟩ := List.exists_of_findSome?_eq_some h
  split at hf
  · rw [Option.some.injEq, Prod.mk.injEq] at hf
    obtain ⟨h1, h2⟩ := hf
    subst h1
    exact ⟨h2.symm, superscripts_len _ hmem⟩
  · cases hf

theorem matchVowel_some {t : List Char} {v : String} {n : Nat}
    (h : matchVowel t = some (v, n)) :
    n = v.length ∧ 1 ≤ v.length ∧ startsWithStr t v = true := by
  unfold matchVowel at h
  obtain ⟨v0, hmem, hf⟩ := List.exists_of_findSome?_eq_some h
  split at hf
  · next hpre =>
    rw [Option.some.injEq, Prod.mk.injEq] at hf
    obtain ⟨h1, h2⟩ := hf
    subst h1
    exact ⟨h2.symm, vowelsSorted_len _ hmem, hpre⟩
  · cases hf

theorem matchRoot_some {t : List Char} {r : String} {n : Nat}
    (h : matchRoot t = some (r, n)) :
    1 ≤ r.length ∧ (r = "a" → t.head? = some 'a' ∨ t.head? = some 'A') := by
  unfold matchRoot at h
  rcases hcs : matchRootCS t with _ | v
  · rw [hcs] at h
    simp only [Option.orElse] at h
    unfold matchRootCI at h
    obtain ⟨k, hmem, hf⟩ := List.exists_of_findSome?_eq_some h
    split at hf
    · next hpre =>
      rw [Option.some.injEq, Prod.mk.injEq] at hf
      obtain ⟨h1, h2⟩ := hf
      constructor
      · rw [← h1]
        have hsl : (strLower k).length = k.length :=
          List.length_map k.data Char.toLower
        rw [hsl]
        exact consonantsSorted_len k hmem
      · intro hra
        rw [← h1] at hra
        have hk : k = "a" := consonantsSorted_lower_a k hmem hra
        subst hk
        have hsw : startsWithStr (lowerChars t) "a" = true := by
          have : strLower "a" = "a" := rfl
          rw [← this]
          exact hpre
        obtain ⟨htake, hlen⟩ := startsWithStr_take hsw
        match t, htake with
        | t0 :: trest, htake =>
          simp only [lowerChars, List.map_cons, List.take_succ_cons,
            List.take_zero] at htake
          have h0 : t0.toLower = 'a' := by
            injection htake
          rcases char_toLower_eq_a h0 with he | he
          · exact Or.inl (by rw [he]; rfl)
          · exact Or.inr (by rw [he]; rfl)
    · cases hf
  · rw [hcs] at h
    simp only [Option.orElse] at h
    rw [Option.some.injEq] at h
    subst h
    unfold matchRootCS at hcs
    obtain ⟨k, hmem, hf⟩ := List.exists_of_findSome?_eq_some hcs
    split at hf
    · next hpre =>
      rw [Option.some.injEq, Prod.mk.injEq] at hf
      obtain ⟨h1, h2⟩ := hf
      subst h1
      constructor
      · exact consonantsSorted_len k hmem
      · intro hra
        subst hra
        obtain ⟨htake, hlen⟩ := startsWithStr_take hpre
        match t, htake with
        | t0 :: trest, htake =>
          simp only [List.take_succ_cons, List.take_zero] at htake
          have h0 : t0 = 'a' := by
            injection htake
          exact Or.inl (by rw [h0]; rfl)
    · cases hf

theorem matchedLen_ge_presup (text : List Char) (c : SyllableComponents) :
    (match c.prescript with
     | some p => p.length
     | none => 0) +
    (match c.superscript with
     | some s => s.length
     | none => 0) ≤ matchedLen text c := by
  unfold matchedLen
  dsimp only
  repeat' split
  all_goals omega

theorem matchedLen_ge_root (text : List Char) (c : SyllableComponents)
    (h : isVowelInitialSyllable text c = false) :
    c.root.length ≤ matchedLen text c := by
  unfold matchedLen
  dsimp only
  rw [h]
  simp only [Bool.false_eq_true, if_false]
  repeat' split
  all_goals omega

theorem matchedLen_ge_vowel (text : List Char) (c : SyllableComponents)
    {v : String}
    (hflag : isVowelInitialSyllable text c = true)
    (hpre : c.prescript = none) (hsup : c.superscript = none)
    (hsub : c.subscript = none) (hvow : c.vowel = some v)
    (hsw : startsWithStr text v = true) :
    v.length ≤ matchedLen text c := by
  have hvne : v ≠ "" := by
    unfold isVowelInitialSyllable at hflag
    rw [hvow] at hflag
    intro habs
    subst habs
    simp at hflag
  obtain ⟨htake, hlen⟩ := startsWithStr_take hsw
  unfold matchedLen
  dsimp only
  rw [hflag, hpre, hsup, hsub, hvow]
  simp only [if_true]
  have hcontrib : vowelLenContribution text (0 + 0 + 0) v = v.length := by
    unfold vowelLenContribution
    rw [if_pos hvne]
    rw [if_pos (⟨by omega, by simpa using htake⟩ :
      0 + 0 + 0 + v.length ≤ text.length ∧
        (text.drop (0 + 0 + 0)).take v.length = v.data)]
  rw [hcontrib]
  repeat' split
  all_goals omega



theorem finishStrategy_some {pre sup : Option String} {root : String}
    {sub : Option String} {v : String} {text : List Char} {pos : Nat}
    {c : SyllableComponents} {n : Nat}
    (h : finishStrategy pre sup root sub v text pos = some (c, n)) :
    c.root = root ∧ c.prescript = pre ∧ c.superscript = sup ∧
      c.subscript = sub ∧ c.vowel = some v := by
  unfold finishStrategy at h
  dsimp only at h
  split at h
  · cases h
  · rw [Option.some.injEq, Prod.mk.injEq] at h
    obtain ⟨h1, _⟩ := h
    subst h1
    exact ⟨rfl, rfl, rfl, rfl, rfl⟩

theorem rootPhase_matchedLen {text : List Char} {pre sup : Option String}
    {pos : Nat} {c : SyllableComponents} {n : Nat}
    (hpre : ∀ p, pre = some p → 1 ≤ p.length)
    (hsup : ∀ s, sup = some s → 1 ≤ s.length)
    (hnone : pre = none → sup = none → pos = 0)
    (h : tryStrategyRootPhase text pre sup pos = some (c, n)) :
    1 ≤ matchedLen text c := by
  unfold tryStrategyRootPhase at h
  rcases hr : matchRoot (text.drop pos) with _ | ⟨root, rootLen⟩
  · -- vowel-initial path
    rw [hr] at h
    dsimp only at h
    rcases hv : matchVowel (text.drop pos) with _ | ⟨v, vowelLen⟩
    · rw [hv] at h
      exact Option.noConfusion h
    · rw [hv] at h
      dsimp only at h
      split at h
      · split at h
        · exact Option.noConfusion h
        · obtain ⟨hcroot, hcpre, hcsup, hcsub, hcvow⟩ := finishStrategy_some h
          rcases hpe : pre with _ | p
          · rcases hse : sup with _ | s
            · -- both none: pos = 0
              have hpos : pos = 0 := hnone hpe hse
              subst hpos
              rw [hpe] at hcpre
              rw [hse] at hcsup
              obtain ⟨hlv, hlen1, hsw⟩ := matchVowel_some hv
              rw [List.drop_zero] at hsw
              by_cases hflag : isVowelInitialSyllable text c = true
              · have hge := matchedLen_ge_vowel text c hflag hcpre hcsup
                  hcsub hcvow hsw
                omega
              · have hflag2 : isVowelInitialSyllable text c = false :=
                  Bool.eq_false_iff.mpr hflag
                have hge := matchedLen_ge_root text c hflag2
                rw [hcroot] at hge
                exact hge
            · have h1 := matchedLen_ge_presup text c
              rw [hcpre, hcsup, hpe, hse] at h1
              have h2 := hsup s hse
              dsimp only at h1
              omega
          · have h1 := matchedLen_ge_presup text c
            rw [hcpre, hpe] at h1
            have h2 := hpre p hpe
            dsimp only at h1
            omega
      · exact Option.noConfusion h
  · -- consonant root path
    rw [hr] at h
    dsimp only at h
    split at h
    · exact Option.noConfusion h
    · obtain ⟨hcroot, hcpre, hcsup, hcsub, hcvow⟩ := finishStrategy_some h
      obtain ⟨hrl, hra⟩ := matchRoot_some hr
      rcases hpe : pre with _ | p
      · rcases hse : sup with _ | s
        · have hpos : pos = 0 := hnone hpe hse
          subst hpos
          rw [List.drop_zero] at hra
          have hflag : isVowelInitialSyllable text c = false := by
            unfold isVowelInitialSyllable
            rw [hcroot]
            by_cases hr0 : root = "a"
            · rcases hra hr0 with hh | hh
              · rw [hh]
                simp
              · rw [hh]
                simp
            · have hb : (root == "a") = false := by
                simp [hr0]
              rw [hb]
              simp
          have hge := matchedLen_ge_root text c hflag
          rw [hcroot] at hge
          omega
        · have h1 := matchedLen_ge_presup text c
          rw [hcpre, hcsup, hpe, hse] at h1
          have h2 := hsup s hse
          dsimp only at h1
          omega
      · have h1 := matchedLen_ge_presup text c
        rw [hcpre, hpe] at h1
        have h2 := hpre p hpe
        dsimp only at h1
        omega

theorem tryStrategy_matchedLen {text : List Char} {strat : Strategy}
    {c : SyllableComponents} {n : Nat}
    (h : tryStrategy text strat = some (c, n)) : 1 ≤ matchedLen text c := by
  unfold tryStrategy at h
  cases strat
  case simple =>
    dsimp only at h
    exact rootPhase_matchedLen (fun p hp => Option.noConfusion hp)
      (fun s hs => Option.noConfusion hs) (fun _ _ => rfl) h
  case withSuper =>
    dsimp only at h
    rcases hs : matchSuperscript (List.drop 0 text) with _ | ⟨s, l⟩
    · rw [hs] at h
      dsimp only at h
      exact rootPhase_matchedLen (fun p hp => Option.noConfusion hp)
        (fun s hs => Option.noConfusion hs) (fun _ _ => rfl) h
    · rw [hs] at h
      dsimp only at h
      obtain ⟨hl, hl1⟩ := matchSuperscript_some hs
      exact rootPhase_matchedLen (fun p hp => Option.noConfusion hp)
        (fun s0 hs0 => by injection hs0 with he; subst he; exact hl1)
        (fun _ habs => Option.noConfusion habs) h
  case withPre =>
    dsimp only at h
    rcases hp : matchPrescript text with _ | ⟨p, l⟩
    · rw [hp] at h
      dsimp only at h
      exact rootPhase_matchedLen (fun p hp => Option.noConfusion hp)
        (fun s hs => Option.noConfusion hs) (fun _ _ => rfl) h
    · rw [hp] at h
      dsimp only at h
      obtain ⟨hl, hl1⟩ := matchPrescript_some hp
      exact rootPhase_matchedLen
        (fun p0 hp0 => by injection hp0 with he; subst he; exact hl1)
        (fun s hs => Option.noConfusion hs)
        (fun habs _ => Option.noConfusion habs) h
  case full =>
    dsimp only at h
    rcases hp : matchPrescript text with _ | ⟨p, l⟩
    · rw [hp] at h
      dsimp only at h
      rcases hs : matchSuperscript (List.drop 0 text) with _ | ⟨s, l2⟩
      · rw [hs] at h
        dsimp only at h
        exact rootPhase_matchedLen (fun p hp => Option.noConfusion hp)
          (fun s hs => Option.noConfusion hs) (fun _ _ => rfl) h
      · rw [hs] at h
        dsimp only at h
        obtain ⟨hl, hl1⟩ := matchSuperscript_some hs
        exact rootPhase_matchedLen (fun p hp => Option.noConfusion hp)
          (fun s0 hs0 => by injection hs0 with he; subst he; exact hl1)
          (fun _ habs => Option.noConfusion habs) h
    · rw [hp] at h
      dsimp only at h
      obtain ⟨hl, hl1⟩ := matchPrescript_some hp
      rcases hs : matchSuperscript (List.drop l text) with _ | ⟨s, l2⟩
      · rw [hs] at h
        dsimp only at h
        exact rootPhase_matchedLen
          (fun p0 hp0 => by injection hp0 with he; subst he; exact hl1)
          (fun s hs => Option.noConfusion hs)
          (fun habs _ => Option.noConfusion habs) h
      · rw [hs] at h
        dsimp only at h
        obtain ⟨hl2, hl21⟩ := matchSuperscript_some hs
        exact rootPhase_matchedLen
          (fun p0 hp0 => by injection hp0 with he; subst he; exact hl1)
          (fun s0 hs0 => by injection hs0 with he; subst he; exact hl21)
          (fun habs _ => Option.noConfusion habs) h

theorem parseFold_sound (text : List Char) :
    ∀ (strats : List Strategy) (best : Option SyllableComponents × Nat),
    (∀ c, best.1 = some c → ∃ strat n, tryStrategy text strat = some (c, n)) →
    ∀ c, (strats.foldl (pickStrategy text) best).1 = some c →
    ∃ strat n, tryStrategy text strat = some (c, n) := by
  intro strats
  induction strats with
  | nil =>
    intro best hbest c hc
    exact hbest c hc
  | cons s ss ih =>
    intro best hbest c hc
    rw [List.foldl_cons] at hc
    apply ih (pickStrategy text best s) _ c hc
    intro c0 hc0
    unfold pickStrategy at hc0
    rcases ht : tryStrategy text s with _ | ⟨c1, l1⟩
    · rw [ht] at hc0
      dsimp only at hc0
      exact hbest c0 hc0
    · rw [ht] at hc0
      dsimp only at hc0
      split at hc0
      · dsimp only at hc0
        rw [Option.some.injEq] at hc0
        subst hc0
        exact ⟨s, l1, ht⟩
      · exact hbest c0 hc0

theorem parseSyllable_sound {text : List Char} {c : SyllableComponents}
    (h : parseSyllable text = some c) :
    ∃ strat n, tryStrategy text strat = some (c, n) := by
  unfold parseSyllable at h
  split at h
  · exact Option.noConfusion h
  · exact parseFold_sound text _ _ (fun c0 hc0 => Option.noConfusion hc0) c h

theorem matchSyllableF_progress {t : List Char}
    (h : (matchSyllableF t).1 ≠ "") : 1 ≤ (matchSyllableF t).2 := by
  unfold matchSyllableF at h ⊢
  rcases hp : parseSyllable t with _ | c
  · rw [hp] at h
    exact absurd rfl h
  · rw [hp] at h
    dsimp only at h ⊢
    split at h
    · exact absurd rfl h
    · next hroot =>
      rw [if_neg hroot]
      obtain ⟨strat, n, ht⟩ := parseSyllable_sound hp
      exact tryStrategy_matchedLen ht


theorem transLoop_isSome :
    ∀ (fuel : Nat) (t : List Char) (s l : Bool) (acc : List String),
    t.length ≤ fuel → (transLoop fuel t s l acc).isSome = true := by
  intro fuel
  induction fuel with
  | zero =>
    intro t s l acc hle
    match t with
    | [] => rfl
  | succ n ih =>
    intro t s l acc hle
    match t with
    | [] => rfl
    | c :: rest =>
      have hrest : rest.length ≤ n := by
        simp only [List.length_cons] at hle
        omega
      show (transStep (fun t' last' acc' => transLoop n t' s last' acc')
        c rest s l acc).isSome = true
      unfold transStep
      dsimp only
      split
      · exact ih rest s false _ hrest
      · split
        · exact ih rest s false _ hrest
        · split
          · next hpunct =>
            apply ih
            rw [List.length_drop]
            have h1 := matchPunctuation_progress hpunct
            simp only [List.length_cons]
            omega
          · split
            · next hmark =>
              apply ih
              rw [List.length_drop]
              have h1 := matchSanskritMark_progress hmark
              simp only [List.length_cons]
              omega
            · split
              · -- lastWasSyllable = true: no standalone-vowel attempt
                rw [if_neg (by simp : ¬ (("", 0) : String × Nat).1 ≠ "")]
                split
                · next hsyl =>
                  apply ih
                  rw [List.length_drop]
                  have h1 := matchSyllableF_progress hsyl
                  simp only [List.length_cons]
                  omega
                · exact ih rest s false _ hrest
              · -- lastWasSyllable = false: try the standalone vowel
                split
                · next hsv =>
                  apply ih
                  rw [List.length_drop]
                  have h1 := matchStandaloneVowel_progress hsv
                  simp only [List.length_cons]
                  omega
                · split
                  · next hsyl =>
                    apply ih
                    rw [List.length_drop]
                    have h1 := matchSyllableF_progress hsyl
                    simp only [List.length_cons]
                    omega
                  · exact ih rest s false _ hrest

/-! ## Claim theorems -/

/-- C10: on the empty string all three public operations return neutral
results: `wylie_to_unicode("", b) = ""` for either flag value,
`unicode_to_wylie("") = ""`, and `validate("")` is valid with empty error
and warning sequences. -/
theorem C10_empty_string_neutral :
    (∀ b : Bool, wylieToUnicodeOpt "" b = some "" ∧ wylieToUnicode "" b = "") ∧
    (unicodeToWylieOpt "" = some "" ∧ unicodeToWylie "" = "") ∧
    (validate "").isValid = true ∧ (validate "").errors = [] ∧
    (validate "").warnings = [] := by
  refine ⟨fun b => ?_, by decide, by decide, by decide, by decide⟩
  cases b <;> exact ⟨rfl, rfl⟩

/-- C6: for every input text, the `ValidationResult` returned by `validate`
has `is_valid = true` exactly when its error sequence is empty (warnings do
not participate). -/
theorem C6_is_valid_iff_no_errors (s : String) :
    (validate s).isValid = true ↔ (validate s).errors = [] := by
  unfold validate
  rcases h : validateLoop (tokenize s.data) 0 with ⟨es, ws⟩
  simp [h, List.length_eq_zero]

/-- C8: in the reverse index built from each forward table, every retained
entry is one of the EWTS spellings that produce that Unicode value in the
table, of minimal length among all of them; in particular the subjoined wa
(shared by `v` and `w`) reverses to `w`. -/
theorem C8_reverse_keeps_shortest :
    (∀ tbl ∈ [consonants, vowels, subscripts, punctuation, sanskritMarks,
        numerals, sanskritRetroflex],
      ∀ p ∈ reverseDict tbl,
        (p.2, p.1) ∈ tbl ∧ ∀ q ∈ tbl, q.2 = p.1 → p.2.length ≤ q.1.length) ∧
    alookup (reverseDict subscripts) "ྭ" = some "w" := by
  decide

/-- Witness for C8 at a concrete table and entry: the subjoined wa entry of
the reversed SUBSCRIPTS table is a table spelling of minimal length. -/
theorem C8_reverse_keeps_shortest_witness :
    (("ྭ", "w").2, ("ྭ", "w").1) ∈ subscripts ∧
    ∀ q ∈ subscripts, q.2 = ("ྭ", "w").1 →
      ("ྭ", "w").2.length ≤ q.1.length :=
  C8_reverse_keeps_shortest.1 subscripts (by decide) ("ྭ", "w") (by decide)

set_option maxRecDepth 2000 in
/-- C1 (code bug): the forward transliterator always renders a standalone
anusvara `M` with the default codepoint `U+0F7E`, ignoring the context of
the preceding unit; consequently the mantra renders with `U+0F7E` after
`hU`, not with the alternate `U+0F83` that the spec (and the repository's
own `test_full_mantra`) expects. -/
theorem C1_anusvara_context_rule_not_implemented :
    (∀ previousChar : String, matchSanskritMark ['M'] previousChar = ("ཾ", 1)) ∧
    wylieToUnicodeOpt "oM ma Ni pa dme hUM|" true =
      some "ཨོཾ་མ་ཎི་པ་དྨེ་ཧཱུཾ།" ∧
    wylieToUnicode "oM ma Ni pa dme hUM|" true ≠
      "ཨོཾ་མ་ཎི་པ་དྨེ་ཧཱུྃ།" := by
  refine ⟨fun _ => rfl, by decide, by decide⟩

set_option maxRecDepth 2000 in
/-- C3 (code bug): `wylie_to_unicode("dme")` and
`wylie_to_unicode("d+me")` produce the SAME single-syllable subjoined
stack `ད + ྨ + ེ`, although the spec (and the repository's comparison
test `test_subscript_vs_no_subscript`) requires them to diverge. -/
theorem C3_dme_equals_d_plus_me :
    wylieToUnicode "dme" true = wylieToUnicode "d+me" true ∧
    wylieToUnicode "dme" true = "དྨེ" := by
  exact ⟨by decide, by decide⟩

/-- Counterexample to C2: on input `"rha"` the `with_super` strategy
matches superscript `r` and root `h`, a pair that the structural rule table
(`VALID_SUPERSCRIPT_COMBINATIONS`) does not allow, yet the strategy attempt
is accepted (and wins the overall parse) instead of being rejected. -/
theorem C2_counterexample_rha_accepted :
    tryStrategy "rha".data Strategy.withSuper =
      some ({ root := "h", superscript := some "r", vowel := some "a" }, 3) ∧
    parseSyllable "rha".data =
      some { root := "h", superscript := some "r", vowel := some "a" } ∧
    (ruleRoots validSuperscriptCombinations "r").contains "h" = false := by
  decide

/-- C2 (amended): the parser calls
`_is_valid_superscript_combination`, but its rules object (`SyllableRules`
from character_mappings.py) defines no `VALID_SUPERSCRIPT_COMBINATIONS`
table, so the check falls back to `True` for every superscript–root pair
and no strategy attempt is ever rejected for superscript–root
incompatibility. -/
theorem C2_superscript_check_vacuous (sup root : String) :
    isValidSuperscriptCombination sup root = true :=
  rfl

/-- Counterexample to C4: `"kva"` is rendered by a non-fallback syllable
match consuming the whole input, yet its round trip returns `"kwa"`: the
reverse index maps the shared subjoined wa to the spelling `w`, not `v`.
The difference is not the documented inherent-vowel normalization (the
vowel `a` is explicit in `"kva"`). -/
theorem C4_roundtrip_counterexample_kva :
    matchSyllableF "kva".data = ("ཀྭ", 3) ∧
    wylieToUnicode "kva" true = "ཀྭ" ∧
    unicodeToWylie "ཀྭ" = "kwa" ∧
    ("kwa" : String) ≠ "kva" := by
  refine ⟨by decide, by decide, by decide, by decide⟩

/-- The round-trip corpus: canonical EWTS spellings whose forward rendering
comes from a non-fallback syllable match. -/
def roundTripCorpus : List String :=
  ["ka", "kha", "ga", "nga", "bla", "ma", "om", "sgrol", "bsgrubs", "hUM"]

set_option maxRecDepth 8000 in
/-- C4 (amended): the round trip `unicode_to_wylie ∘ wylie_to_unicode` is
the identity on a corpus of canonical EWTS syllables, and a root written
without an explicit vowel decodes back to its inherent-`a` form
(`"k"` round-trips to `"ka"`); the unrestricted claim fails on alternative
spellings such as `"kva"` (see the counterexample). -/
theorem C4_roundtrip_on_corpus :
    (∀ s ∈ roundTripCorpus, unicodeToWylie (wylieToUnicode s true) = s) ∧
    unicodeToWylie (wylieToUnicode "k" true) = "ka" := by
  refine ⟨by decide, by decide⟩

/-- Witness for C4 at a concrete corpus entry. -/
theorem C4_roundtrip_on_corpus_witness :
    unicodeToWylie (wylieToUnicode "bla" true) = "bla" :=
  C4_roundtrip_on_corpus.1 "bla" (by decide)

set_option maxRecDepth 4000 in
/-- Every character of every multi-character entry of the valid-character
set is itself a valid single character, so the length-3/2 skips of
`_find_unknown_characters` can never jump over an unknown character. -/
theorem validChars_chars_valid :
    ∀ v ∈ validChars, ∀ ch ∈ v.data, isValidCharStr (String.mk [ch]) = true := by
  decide

/-- A token containing an unknown character always yields a non-empty
unknown-character list. -/
theorem findUnknownAux_ne_nil (fuel : Nat) (t : List Char) (c : Char)
    (hfuel : t.length ≤ fuel) (hmem : c ∈ t)
    (hbad : isValidCharStr (String.mk [c]) = false) :
    findUnknownAux fuel t ≠ [] := by
  induction fuel generalizing t with
  | zero =>
    cases t with
    | nil => cases hmem
    | cons => simp at hfuel
  | succ fuel ih =>
    match t, hmem with
    | c0 :: rest, hmem =>
      rw [findUnknownAux]
      by_cases h3 : 3 ≤ (c0 :: rest).length ∧
          isValidCharStr (String.mk ((c0 :: rest).take 3)) = true
      · rw [if_pos h3]
        have hcin : c ∈ rest.drop 2 := by
          rcases List.mem_append.mp
              ((List.take_append_drop 3 (c0 :: rest)) ▸ hmem) with hin | hin
          · exfalso
            have := validChars_chars_valid (String.mk ((c0 :: rest).take 3))
              (by
                have := h3.2
                simp only [isValidCharStr] at this
                simpa using this) c hin
            rw [this] at hbad
            cases hbad
          · exact hin
        apply ih
        · have : (rest.drop 2).length = rest.length - 2 := List.length_drop 2 rest
          simp only [List.length_cons] at hfuel
          omega
        · exact hcin
      · rw [if_neg h3]
        by_cases h2 : 2 ≤ (c0 :: rest).length ∧
            isValidCharStr (String.mk ((c0 :: rest).take 2)) = true
        · rw [if_pos h2]
          have hcin : c ∈ rest.drop 1 := by
            rcases List.mem_append.mp
                ((List.take_append_drop 2 (c0 :: rest)) ▸ hmem) with hin | hin
            · exfalso
              have := validChars_chars_valid (String.mk ((c0 :: rest).take 2))
                (by
                  have := h2.2
                  simp only [isValidCharStr] at this
                  simpa using this) c hin
              rw [this] at hbad
              cases hbad
            · exact hin
          apply ih
          · have : (rest.drop 1).length = rest.length - 1 := List.length_drop 1 rest
            simp only [List.length_cons] at hfuel
            omega
          · exact hcin
        · rw [if_neg h2]
          by_cases h1 : isValidCharStr (String.mk [c0]) = true
          · rw [if_pos h1]
            have hcin : c ∈ rest := by
              rcases List.mem_cons.mp hmem with he | hin
              · exfalso
                rw [he] at hbad
                rw [h1] at hbad
                cases hbad
              · exact hin
            apply ih
            · simp only [List.length_cons] at hfuel
              omega
            · exact hcin
          · rw [if_neg h1]
            rw [if_pos (fun habs => h1 habs)]
            exact List.cons_ne_nil _ _

/-- `_find_unknown_characters` on a token containing an unknown
character is non-empty. -/
theorem findUnknownCharacters_ne_nil (t : List Char) (c : Char)
    (hmem : c ∈ t) (hbad : isValidCharStr (String.mk [c]) = false) :
    findUnknownCharacters t ≠ [] :=
  findUnknownAux_ne_nil t.length t c (Nat.le_refl _) hmem hbad

/-- Every non-separator character of the input ends up inside some token
of `_tokenize`. -/
theorem tokenizeAux_mem (t : List Char) (cur : List Char) (c : Char)
    (hmem : c ∈ cur ∨ c ∈ t)
    (hsep : ([' ', '\t', '\n', '/', '|'].contains c) = false) :
    ∃ tok ∈ tokenizeAux cur t, c ∈ tok := by
  induction t generalizing cur with
  | nil =>
    rcases hmem with hin | hin
    · have hne : cur ≠ [] := List.ne_nil_of_mem hin
      refine ⟨cur.reverse, ?_, List.mem_reverse.mpr hin⟩
      simp [tokenizeAux, hne]
    · cases hin
  | cons c0 rest ih =>
    by_cases hc0 : ([' ', '\t', '\n', '/', '|'].contains c0) = true
    · have hcc0 : c ≠ c0 := by
        intro he
        rw [he] at hsep
        rw [hc0] at hsep
        cases hsep
      rw [tokenizeAux, if_pos hc0]
      rcases hmem with hin | hin
      · have hne : cur ≠ [] := List.ne_nil_of_mem hin
        refine ⟨cur.reverse, ?_, List.mem_reverse.mpr hin⟩
        apply List.mem_append_left
        simp [hne]
      · rcases List.mem_cons.mp hin with he | hin
        · exact absurd he hcc0
        · obtain ⟨tok, htok, hctok⟩ := ih [] (Or.inr hin)
          exact ⟨tok, List.mem_append_right _ (List.mem_cons_of_mem _ htok), hctok⟩
    · rw [tokenizeAux, if_neg hc0]
      rcases hmem with hin | hin
      · exact ih (c0 :: cur) (Or.inl (List.mem_cons_of_mem c0 hin))
      · rcases List.mem_cons.mp hin with he | hin
        · exact ih (c0 :: cur) (Or.inl (he ▸ List.mem_cons_self c0 cur))
        · exact ih (c0 :: cur) (Or.inr hin)

/-- When a token has unknown characters, `_validate_syllable` reports
exactly the one `unknown_character` error and performs no further
structural checks (no other errors, no warnings). -/
theorem validateSyllable_unknown (tok : List Char) (p : Nat)
    (h : findUnknownCharacters tok ≠ []) :
    validateSyllable tok p =
      ([{ errorType := "unknown_character", position := p,
          syllable := String.mk tok,
          message := "Unknown characters: " ++ String.intercalate ", "
            ((findUnknownCharacters tok).map fun c => String.mk [c]),
          suggestion := "Check EWTS character list" }], []) := by
  simp only [validateSyllable]
  rw [if_pos h]

/-- Errors reported for any non-punctuation token of the input appear in
the final error sequence of `validate`. -/
theorem validateLoop_contains (tokens : List (List Char)) (pos : Nat)
    (tok : List Char) (htok : tok ∈ tokens)
    (hpo : isPunctuationOnly tok = false) :
    ∃ p, ∀ e ∈ (validateSyllable tok p).1, e ∈ (validateLoop tokens pos).1 := by
  induction tokens generalizing pos with
  | nil => cases htok
  | cons t ts ih =>
    rcases List.mem_cons.mp htok with he | hin
    · subst he
      rw [validateLoop, if_neg (by rw [hpo]; exact Bool.false_ne_true)]
      refine ⟨pos, fun e he => ?_⟩
      rcases h1 : validateSyllable tok pos with ⟨es, ws⟩
      rcases h2 : validateLoop ts (pos + tok.length) with ⟨es2, ws2⟩
      simp only [h1, h2]
      rw [h1] at he
      exact List.mem_append_left _ he
    · by_cases hpt : isPunctuationOnly t = true
      · rw [validateLoop, if_pos hpt]
        exact ih _ hin
      · rw [validateLoop, if_neg hpt]
        obtain ⟨p, hp⟩ := ih (pos + t.length) hin
        refine ⟨p, fun e he => ?_⟩
        rcases h1 : validateSyllable t pos with ⟨es, ws⟩
        rcases h2 : validateLoop ts (pos + t.length) with ⟨es2, ws2⟩
        simp only [h1, h2]
        apply List.mem_append_right
        have := hp e he
        rw [h2] at this
        exact this

/-- C5: any input containing a character outside the known EWTS
repertoire validates as invalid, with an `unknown_character` error whose
token contains the offending character, and validation of that token stops
there: it consists of exactly that single error and nothing else. -/
theorem C5_unknown_character_stops_validation (s : String) (c : Char)
    (hmem : c ∈ s.data) (hbad : isValidCharStr (String.mk [c]) = false) :
    (validate s).isValid = false ∧
    ∃ e ∈ (validate s).errors, e.errorType = "unknown_character" ∧
      c ∈ e.syllable.data ∧
      validateSyllable e.syllable.data e.position = ([e], []) := by
  have hsep : ([' ', '\t', '\n', '/', '|'].contains c) = false := by
    rcases Bool.eq_false_or_eq_true ([' ', '\t', '\n', '/', '|'].contains c) with h | h
    case inr => exact h
    · exfalso
      have hc : c = ' ' ∨ c = '\t' ∨ c = '\n' ∨ c = '/' ∨ c = '|' := by
        simpa using h
      rcases hc with he | he | he | he | he
      · exact absurd hbad (by rw [he]; decide)
      · exact absurd hbad (by rw [he]; decide)
      · exact absurd hbad (by rw [he]; decide)
      · exact absurd hbad (by rw [he]; decide)
      · exact absurd hbad (by rw [he]; decide)
  obtain ⟨tok, htok, hctok⟩ := tokenizeAux_mem s.data [] c (Or.inr hmem) hsep
  have hpo : isPunctuationOnly tok = false := by
    rcases Bool.eq_false_or_eq_true (isPunctuationOnly tok) with h | h
    case inr => exact h
    · exfalso
      have hall := List.all_eq_true.mp h c hctok
      have hc : c = ' ' ∨ c = '\t' ∨ c = '\n' ∨ c = '/' ∨ c = '|' ∨ c = '.' := by
        simpa using hall
      rcases hc with he | he | he | he | he | he
      · exact absurd hbad (by rw [he]; decide)
      · exact absurd hbad (by rw [he]; decide)
      · exact absurd hbad (by rw [he]; decide)
      · exact absurd hbad (by rw [he]; decide)
      · exact absurd hbad (by rw [he]; decide)
      · exact absurd hbad (by rw [he]; decide)
  have hunk : findUnknownCharacters tok ≠ [] :=
    findUnknownCharacters_ne_nil tok c hctok hbad
  obtain ⟨p, hp⟩ := validateLoop_contains (tokenize s.data) 0 tok htok hpo
  have heq := validateSyllable_unknown tok p hunk
  set err : ValidationError :=
    { errorType := "unknown_character", position := p,
      syllable := String.mk tok,
      message := "Unknown characters: " ++ String.intercalate ", "
        ((findUnknownCharacters tok).map fun ch => String.mk [ch]),
      suggestion := "Check EWTS character list" } with herr
  have herrmem : err ∈ (validateLoop (tokenize s.data) 0).1 := by
    apply hp
    rw [heq]
    exact List.mem_singleton_self _
  have hval : (validate s).errors = (validateLoop (tokenize s.data) 0).1 := by
    unfold validate
    rcases h1 : validateLoop (tokenize s.data) 0 with ⟨es, ws⟩
    rfl
  constructor
  · unfold validate
    rcases h1 : validateLoop (tokenize s.data) 0 with ⟨es, ws⟩
    rw [h1] at herrmem
    simp only
    have : es ≠ [] := List.ne_nil_of_mem herrmem
    cases es with
    | nil => exact absurd rfl this
    | cons a as => rfl
  · refine ⟨err, ?_, rfl, hctok, ?_⟩
    · rw [hval]
      exact herrmem
    · exact heq

/-- Witness for C5 at the concrete input `"k@"` with offending
character `'@'`. -/
theorem C5_unknown_character_witness :
    (validate "k@").isValid = false ∧
    ∃ e ∈ (validate "k@").errors, e.errorType = "unknown_character" ∧
      '@' ∈ e.syllable.data ∧
      validateSyllable e.syllable.data e.position = ([e], []) :=
  C5_unknown_character_stops_validation "k@" '@' (by decide) (by decide)


/-- Counterexample to C7: case normalization is not idempotent.  On
`"Si"` the normalizer emits `"Sa" + "i"` (treating `S` as a potential
Sanskrit capital), but `"Sa"` is not one of the preserved retroflex
digraphs, so a second pass folds it to lowercase: `normalize "Si" = "Sai"`
while `normalize "Sai" = "sai"`. -/
theorem C7_counterexample_Si :
    normalize (normalize "Si") ≠ normalize "Si" ∧
    normalize "Si" = "Sai" ∧ normalize (normalize "Si") = "sai" := by
  refine ⟨by decide, by decide, by decide⟩

/-- C7 (amended): on every string containing no uppercase character the
case normalizer is the identity, and therefore idempotent; idempotence
fails in general (see the counterexample `"Si"`). -/
theorem C7_normalize_idempotent_on_no_uppercase (s : String)
    (h : ∀ c ∈ s.data, c.isUpper = false) :
    normalize (normalize s) = normalize s := by
  have hid : normalize s = s := by
    show String.mk (normalizeLoop s.data.length none s.data) = s
    rw [normalizeLoop_id _ _ _ h]
  rw [hid]
  exact hid

/-- Witness for C7 on a concrete uppercase-free input. -/
theorem C7_normalize_idempotent_witness :
    normalize (normalize "bla ma") = normalize "bla ma" :=
  C7_normalize_idempotent_on_no_uppercase "bla ma" (by decide)


/-- C9: the forward transliteration scan loop makes strict progress — in
particular, whenever a syllable match returns a non-empty Unicode rendering
its recomputed matched length is at least 1 — so with fuel equal to the
length of the normalized input the scan always completes:
`wylie_to_unicode` is a total terminating function on every finite input
string. -/
theorem C9_scan_progress_and_termination :
    (∀ (s : String) (b : Bool), (wylieToUnicodeOpt s b).isSome = true) ∧
    (∀ t : List Char, (matchSyllableF t).1 ≠ "" → 1 ≤ (matchSyllableF t).2) := by
  constructor
  · intro s b
    unfold wylieToUnicodeOpt
    exact transLoop_isSome _ _ b false [] (le_refl _)
  · intro t h
    exact matchSyllableF_progress h

set_option maxRecDepth 8000 in
/-- Concrete instance of the progress property: on the input `ka` the
syllable matcher returns a non-empty rendering and a positive length, and
the scan loop on `bsgrubs` completes. -/
theorem C9_scan_progress_and_termination_witness :
    (wylieToUnicodeOpt "bsgrubs" true).isSome = true ∧
    (matchSyllableF "ka".data).1 ≠ "" ∧ 1 ≤ (matchSyllableF "ka".data).2 :=
  ⟨C9_scan_progress_and_termination.1 "bsgrubs" true,
   by decide,
   C9_scan_progress_and_termination.2 "ka".data (by decide)⟩

end Wylie
